import Mathlib

/-!
Verification development for the incremental build orchestrator in
src/example/build.c (repository khvorov45/programmable_build).

Strings are modelled as lists of characters (`Str`).  The `prb_` runtime
primitives (path manipulation, process launching, filesystem queries, line
iteration, number parsing) are not part of src/; where their behaviour
matters they are modelled from the specification's description of the
external interfaces (see the doc comments starting with "Modelled from the
spec:").  Everything else is translated directly from build.c.
-/

/-- Strings as character lists (C strings are byte sequences). -/
abbrev Str := List Char

/-- Convenience conversion from Lean string literals. -/
def str (s : String) : Str := s.data

/-- Modelled from the spec: prb_strEndsWith (suffix test on strings). -/
def endsWith (s suffix : Str) : Bool := decide (suffix <:+ s)

/-- Modelled from the spec: prb_pathJoin joins two path segments with a
separator. -/
def pathJoin (dir name : Str) : Str := dir ++ '/' :: name

/-- Modelled from the spec: prb_getLastEntryInPath (last path segment). -/
def lastEntry (p : Str) : Str := (p.reverse.takeWhile (fun c => c ≠ '/')).reverse

/-- Modelled from the spec: prb_replaceExt replaces the extension after the
last dot (appending one if the name has no dot). -/
def replaceExt (p ext : Str) : Str :=
  match p.reverse.dropWhile (fun c => c ≠ '.') with
  | [] => p ++ '.' :: ext
  | _ :: stemRev => stemRev.reverse ++ '.' :: ext

/-- build.c line 12: value type of a compile-log entry. -/
structure ObjInfo where
  compileCmd : Str
  preprocessedHash : Nat
deriving DecidableEq, Repr

/-- A compile log: stbds string-keyed hash map modelled as an association
list (key order = insertion order, as in stb_ds). -/
abbrev Log := List (Str × ObjInfo)

/-- stb_ds shput: overwrite in place if the key is present, else append. -/
def shput : Log → Str → ObjInfo → Log
  | [], k, v => [(k, v)]
  | (k', v') :: rest, k, v =>
    if k' = k then (k, v) :: rest else (k', v') :: shput rest k v

/-- stb_ds shgeti/lookup: first entry with the key, if any. -/
def shget : Log → Str → Option ObjInfo
  | [], _ => none
  | (k', v') :: rest, k => if k' = k then some v' else shget rest k

/-- build.c line 6: the supported compiler backends. -/
inductive Compiler
  | gcc
  | clang
  | msvc
deriving DecidableEq, Repr

/-- build.c line 124: a file is "preprocessed" when its name ends in .i or
.ii. -/
def fileIsPreprocessed (name : Str) : Bool :=
  endsWith name (str ".i") || endsWith name (str ".ii")

/-- build.c lines 130-209 (constructCompileCmd), success path, for the Linux
build (the prb_PLATFORM_WINDOWS block at lines 179-184 is compiled out).
Produces the exact command string. -/
def constructCompileCmdCore (compiler : Compiler) (release : Bool)
    (flags inputPath outputPath linkFlags : Str) : Str :=
  let base : Str :=
    match compiler with
    | .gcc => str "gcc"
    | .clang => str "clang"
    | .msvc => str "cl /nologo /diagnostics:column /FC"
  let opt : Str :=
    if release then
      match compiler with
      | .gcc | .clang => str " -Ofast"
      | .msvc => str " /O2"
    else
      match compiler with
      | .gcc | .clang => str " -g"
      | .msvc => str " /Zi"
  let inIsPreprocessed := fileIsPreprocessed inputPath
  let outIsPreprocess := fileIsPreprocessed outputPath
  let preOut : Str :=
    if outIsPreprocess then
      match compiler with
      | .gcc | .clang => str " -E"
      | .msvc => str " /P /Fi" ++ outputPath
    else []
  let preIn : Str :=
    if inIsPreprocessed then
      match compiler with
      | .gcc => str " -fpreprocessed"
      | .clang => []
      | .msvc => str " /Yc"
    else []
  let isObj := endsWith outputPath (str "obj")
  let objFlag : Str := if isObj then str " -c" else []
  let outPart : Str :=
    match compiler with
    | .gcc | .clang => ' ' :: inputPath ++ str " -o " ++ outputPath
    | .msvc =>
      let objPath := if isObj then outputPath else replaceExt outputPath (str "obj")
      (str " /Fo" ++ objPath) ++ (if isObj then [] else str " /Fe" ++ outputPath)
  let linkPart : Str :=
    if linkFlags.isEmpty then []
    else
      (match compiler with
       | .gcc | .clang => ' ' :: linkFlags
       | .msvc => str "-link -incremental:no " ++ linkFlags)
      ++ ' ' :: linkFlags
  base ++ opt ++ preOut ++ preIn ++ ' ' :: flags ++ objFlag ++ outPart ++ linkPart

/-- build.c constructCompileCmd including its fatal assertions (lines 157 and
165): a call where the input and the output are both "preprocessed" names
aborts; `none` models the abort. -/
def constructCompileCmd (compiler : Compiler) (release : Bool)
    (flags inputPath outputPath linkFlags : Str) : Option Str :=
  if fileIsPreprocessed inputPath && fileIsPreprocessed outputPath then none
  else some (constructCompileCmdCore compiler release flags inputPath outputPath linkFlags)

/-- build.c lines 288-302: the cache decision for one candidate object file.
`prev` is the previous-run compile log (the stbds NULL map is the empty
list), `fs obj` the filesystem timestamp oracle (`isSome` = prb_isFile), `h`
the freshly computed hash of the preprocessed output and `c` the freshly
synthesized compile command.  Returns the `shouldRecompile` flag. -/
def shouldRecompile (prev : Log) (fs : Str → Option Nat) (obj : Str)
    (h : Nat) (c : Str) : Bool :=
  if !prev.isEmpty && (fs obj).isSome then
    match shget prev obj with
    | some info =>
      if h = info.preprocessedHash then
        if c = info.compileCmd then false else true
      else true
    | none => true
  else true

/-- The sixteen digits used by the C format `"0x%lX"` (uppercase hex). -/
def hexDigits : Str := str "0123456789ABCDEF"

/-- One uppercase hex digit. -/
def toHexDigit (n : Nat) : Char := hexDigits.getD n '0'

/-- Fuel-bounded digit emission (structural recursion so that the kernel
can evaluate it; the fuel is always sufficient, see `toHex_eq`). -/
def toHexFuel : Nat → Nat → Str
  | 0, _ => []
  | f + 1, n =>
    if n < 16 then [toHexDigit n]
    else toHexFuel f (n / 16) ++ [toHexDigit (n % 16)]

/-- Uppercase hexadecimal rendering of a number, as printed by
`prb_fmt(&numberFmtArena, "0x%lX", hash)` in writeLog (build.c line 534),
without the `0x` prefix. -/
def toHex (n : Nat) : Str := toHexFuel (n + 1) n

/-- The full hexadecimal literal written into the log's hash column. -/
def hexLit (n : Nat) : Str := '0' :: 'x' :: toHex n

/-- Value of one hex digit (accepting both cases, as strtoull does). -/
def hexDigitVal (c : Char) : Option Nat :=
  if '0' ≤ c ∧ c ≤ '9' then some (c.toNat - 48)
  else if 'a' ≤ c ∧ c ≤ 'f' then some (c.toNat - 87)
  else if 'A' ≤ c ∧ c ≤ 'F' then some (c.toNat - 55)
  else none

/-- Value of one decimal digit. -/
def decDigitVal (c : Char) : Option Nat :=
  if '0' ≤ c ∧ c ≤ '9' then some (c.toNat - 48) else none

def parseHexAux (acc : Nat) : Str → Option Nat
  | [] => some acc
  | c :: rest =>
    match hexDigitVal c with
    | some d => parseHexAux (16 * acc + d) rest
    | none => none

def parseDecAux (acc : Nat) : Str → Option Nat
  | [] => some acc
  | c :: rest =>
    match decDigitVal c with
    | some d => parseDecAux (10 * acc + d) rest
    | none => none

/-- Modelled from the spec: prb_parseNumber (not under src/).  The log's
hash field is "rendered as a hexadecimal 64-bit integer literal" (§6), and
parseLog accepts a row's hash only when the parse yields kind U64 (build.c
line 495).  A `0x` literal or a plain decimal that fits in 64 bits parses;
anything else does not. -/
def parseU64 (s : Str) : Option Nat :=
  match s with
  | '0' :: 'x' :: rest =>
    if rest.isEmpty then none
    else
      match parseHexAux 0 rest with
      | some v => if v < 2 ^ 64 then some v else none
      | none => none
  | _ =>
    if s.isEmpty then none
    else
      match parseDecAux 0 s with
      | some v => if v < 2 ^ 64 then some v else none
      | none => none

/-- "Ordinary printable" character: printable ASCII that is not the double
quote.  (Excludes newline and carriage return in particular.) -/
def okChar (c : Char) : Prop := 32 ≤ c.toNat ∧ c.toNat ≤ 126 ∧ c ≠ '"'

instance (c : Char) : Decidable (okChar c) := by unfold okChar; infer_instance

def okStr (s : Str) : Prop := ∀ c ∈ s, okChar c

instance (s : Str) : Decidable (okStr s) := by
  unfold okStr; exact List.decidableBAll _ s

/-- Modelled from the spec: prb_strFind with mode AnyChar on a one-character
pattern, splitting the string at the first occurrence of the character
(before, after). -/
def findChar (c : Char) : Str → Option (Str × Str)
  | [] => none
  | x :: xs =>
    if x = c then some ([], xs)
    else
      match findChar c xs with
      | some (pre, post) => some (x :: pre, post)
      | none => none

/-- build.c lines 429-444 (getStrInQuotes): find the first quote, then the
next quote; return the text between them and the text past the second
quote. -/
def getStrInQuotes (s : Str) : Option (Str × Str) :=
  match findChar '"' s with
  | none => none
  | some (_, rest) =>
    match findChar '"' rest with
    | none => none
    | some (inq, past) => some (inq, past)

structure String3 where
  s0 : Str
  s1 : Str
  s2 : Str
deriving DecidableEq, Repr

/-- build.c lines 451-464 (get3StrInQuotes): three successive quoted
fields. -/
def get3StrInQuotes (s : Str) : Option String3 :=
  match getStrInQuotes s with
  | none => none
  | some (a, r1) =>
    match getStrInQuotes r1 with
    | none => none
    | some (b, r2) =>
      match getStrInQuotes r2 with
      | none => none
      | some (c, _) => some ⟨a, b, c⟩

/-- Split off the first line: text before the first newline, and the
remainder after it. -/
def lineBreak : Str → Str × Str
  | [] => ([], [])
  | c :: rest =>
    if c = '\n' then ([], rest)
    else
      match lineBreak rest with
      | (l, r) => (c :: l, r)

/-- Fuel-bounded line splitting (structural recursion so that the kernel
can evaluate it; the fuel is always sufficient, see `splitLines_cons`). -/
def splitLinesFuel : Nat → Str → List Str
  | 0, _ => []
  | _, [] => []
  | f + 1, c :: rest =>
    (lineBreak (c :: rest)).1 :: splitLinesFuel f (lineBreak (c :: rest)).2

/-- Modelled from the spec: prb_createLineIter/prb_lineIterNext, iterated to
the end of the string.  Each step yields the text before the next newline
and continues after it; iteration stops when no text remains (so a final
newline does not produce a trailing empty line). -/
def splitLines (s : Str) : List Str := splitLinesFuel s.length s

/-- The header/data row layout produced by addLogRow (build.c lines
509-519): each field quoted, fields separated by commas, row ended by a
newline.  `rowLine` is the row without its newline. -/
def quoteField (f rest : Str) : Str := '"' :: (f ++ ('"' :: rest))

def rowLine (a b c : Str) : Str :=
  quoteField a (',' :: quoteField b (',' :: quoteField c []))

def logRow (a b c : Str) : Str := rowLine a b c ++ ['\n']

/-- build.c lines 466-471: the compile-log column order. -/
structure LogCols where
  objPath : Str
  compileCmd : Str
  preprocessedHash : Str

/-- build.c lines 565-569: the concrete column names used by main. -/
def logColumnNames : LogCols :=
  ⟨str "objPath", str "compileCmd", str "preprocessedHash"⟩

structure ParseLogResult where
  log : Log
  success : Bool
deriving DecidableEq

/-- build.c lines 491-502: the data-row loop of parseLog.  A row that
parses as three quoted fields whose hash field parses as a U64 inserts an
entry; a three-field row with an unparsable hash is skipped; a row without
three quoted fields stops the loop with success = false (entries read so
far stay in `log` but the caller discards them). -/
def parseRows (acc : Log) : List Str → ParseLogResult
  | [] => ⟨acc, true⟩
  | line :: rest =>
    match get3StrInQuotes line with
    | some row =>
      match parseU64 row.s2 with
      | some h => parseRows (shput acc row.s0 ⟨row.s1, h⟩) rest
      | none => parseRows acc rest
    | none => ⟨acc, false⟩

/-- build.c lines 478-507 (parseLog): the header row must yield exactly the
three expected column names in order, else the whole file is rejected; then
the data rows are parsed by `parseRows`. -/
def parseLog (s : Str) (cols : LogCols) : ParseLogResult :=
  match splitLines s with
  | [] => ⟨[], false⟩
  | hdr :: rest =>
    match get3StrInQuotes hdr with
    | none => ⟨[], false⟩
    | some h3 =>
      if h3.s0 = cols.objPath ∧ h3.s1 = cols.compileCmd ∧ h3.s2 = cols.preprocessedHash then
        parseRows [] rest
      else ⟨[], false⟩

/-- build.c lines 571-580 (main): the previous-run cache is the parsed log
if the file was read and parsed successfully, else empty (never fatal). -/
def loadPrevLog (fileContents : Option Str) (cols : LogCols) : Log :=
  match fileContents with
  | none => []
  | some s =>
    let r := parseLog s cols
    if r.success then r.log else []

/-- build.c lines 521-542 (writeLog): header row followed by one row per
entry, hash rendered as an uppercase hexadecimal literal. -/
def writeLogStr (log : Log) (cols : LogCols) : Str :=
  logRow cols.objPath cols.compileCmd cols.preprocessedHash
    ++ (log.map (fun e => logRow e.1 e.2.compileCmd (hexLit e.2.preprocessedHash))).flatten

/-- The serialized row of one log entry, without its newline. -/
def rowOf (e : Str × ObjInfo) : Str :=
  rowLine e.1 e.2.compileCmd (hexLit e.2.preprocessedHash)

/-- Process-status state machine values (prb_ProcessStatus). -/
inductive ProcessStatus
  | notLaunched
  | launched
  | completedSuccess
  | completedFailed
deriving DecidableEq, Repr

/-- Observable actions of one pipeline run: child-process launches, file
removals and the synchronous archiver invocation. -/
inductive Event
  | launchPreprocess (cmd : Str)
  | launchCompile (cmd : Str)
  | removeFile (path : Str)
  | runArchiver (cmd : Str)
deriving DecidableEq, Repr

/-- How a pipeline run ends: a fatal prb_assert abort, or completion with
the success flag. -/
inductive Outcome
  | fatal
  | completed (ok : Bool)
deriving DecidableEq, Repr

/-- Filesystem timestamp oracle: `some t` = the file exists with
modification time `t`, `none` = absent. -/
abbrev FS := Str → Option Nat

def fsDelete (fs : FS) (p : Str) : FS := fun q => if q = p then none else fs q

def fsSet (fs : FS) (p : Str) (t : Nat) : FS := fun q => if q = p then some t else fs q

def fsDeleteAll (fs : FS) (ps : List Str) : FS := ps.foldl fsDelete fs

def fsSetAll (fs : FS) (ps : List Str) (t : Nat) : FS :=
  ps.foldl (fun f p => fsSet f p t) fs

/-- The per-target configuration of compileStaticLib (the fields of
StaticLibInfo and ProjectInfo that the pipeline reads, build.c lines
22-45). -/
structure LibConfig where
  compiler : Compiler
  release : Bool
  name : Str
  objDir : Str
  libFile : Str
  compileFlags : Str
  cpp : Bool

/-- The environment one pipeline run observes: glob expansion results (one
list per configured source pattern), the object-directory listing, the
content-hash oracle for preprocessed outputs, the exit status oracle for
launched commands, the archiver's exit status, the filesystem timestamps,
and the (monotone) times at which this run's compiled objects and archive
are stamped. -/
structure PipelineEnv where
  globResults : List (List Str)
  dirEntries : List Str
  hashOf : Str → Nat
  procOk : Str → Bool
  arOk : Bool
  fs : FS
  tCompile : Nat
  tArchive : Nat

/-- build.c lines 251-259: preprocessed-output path of one input
(extension `ii` for C++ targets, `i` for C, placed in the object dir). -/
def preOutPath (cfg : LibConfig) (input : Str) : Str :=
  pathJoin cfg.objDir (replaceExt (lastEntry input) (if cfg.cpp then str "ii" else str "i"))

/-- build.c lines 275-278: object-output path of one input. -/
def objOutPath (cfg : LibConfig) (input : Str) : Str :=
  pathJoin cfg.objDir (replaceExt (lastEntry input) (str "obj"))

/-- build.c line 262: the preprocess command of one input. -/
def preCmdOf (cfg : LibConfig) (input : Str) : Option Str :=
  constructCompileCmd cfg.compiler cfg.release cfg.compileFlags input (preOutPath cfg input) []

/-- build.c line 286: the compile command of one input (from the original,
non-preprocessed input). -/
def compileCmdOf (cfg : LibConfig) (input : Str) : Option Str :=
  constructCompileCmd cfg.compiler cfg.release cfg.compileFlags input (objOutPath cfg input) []

structure PreAcc where
  events : List Event
  cmds : List Str
  fatal : Bool

/-- build.c lines 250-266: the preprocess launch loop (all inputs launched
without waiting; a constructCompileCmd assertion failure aborts). -/
def preLoop (cfg : LibConfig) : List Str → PreAcc
  | [] => ⟨[], [], false⟩
  | i :: rest =>
    match preCmdOf cfg i with
    | none => ⟨[], [], true⟩
    | some c =>
      let r := preLoop cfg rest
      ⟨Event.launchPreprocess c :: r.events, c :: r.cmds, r.fatal⟩

structure CompAcc where
  events : List Event
  launchedCmds : List Str
  recompiled : List Str
  thisLog : Log
  outputObjs : List Str
  fatal : Bool

/-- build.c lines 273-317: the cache-decision and compile launch loop.  For
every input the object path is recorded, the preprocessed output hashed,
the cache consulted (`shouldRecompile`), a compile launched only on a miss,
and a fresh entry recorded into the current-run log regardless of
hit/miss. -/
def compLoop (cfg : LibConfig) (prev : Log) (fs : FS) (hashOf : Str → Nat) :
    Log → List Str → CompAcc
  | tlog, [] => ⟨[], [], [], tlog, [], false⟩
  | tlog, i :: rest =>
    let obj := objOutPath cfg i
    match compileCmdOf cfg i with
    | none => ⟨[], [], [], tlog, [obj], true⟩
    | some c =>
      let h := hashOf (preOutPath cfg i)
      let sr := shouldRecompile prev fs obj h c
      let r := compLoop cfg prev fs hashOf (shput tlog obj ⟨c, h⟩) rest
      ⟨(if sr then [Event.launchCompile c] else []) ++ r.events,
       (if sr then [c] else []) ++ r.launchedCmds,
       (if sr then [obj] else []) ++ r.recompiled,
       r.thisLog,
       obj :: r.outputObjs,
       r.fatal⟩

/-- build.c line 346 via prb_Multitime: the latest modification time over a
set of paths (all asserted to exist by the surrounding code). -/
def maxMtime (fs : FS) (objs : List Str) : Nat :=
  (objs.map (fun o => (fs o).getD 0)).foldl max 0

/-- build.c line 356: the Linux archiver command over the full object
set. -/
def arCmd (libFile : Str) (objs : List Str) : Str :=
  str "ar rcs " ++ libFile ++ ' ' :: joinSp objs
where
  joinSp : List Str → Str
    | [] => []
    | [x] => x
    | x :: y :: rest => x ++ ' ' :: joinSp (y :: rest)

structure ArchRes where
  events : List Event
  ok : Bool
  fs : FS
  fatal : Bool

/-- build.c lines 334-366: the archive stage.  Fatal if any object lacks a
timestamp or the object set is empty (asserts at lines 342 and 345).  The
archiver is invoked iff the archive is absent or the latest object is
strictly newer; when invoked the old archive is removed first and the
archiver runs synchronously over the full object set, the stage succeeding
iff the archiver exits successfully; otherwise the stage is skipped and
succeeds. -/
def archiveStage (libFile : Str) (objs : List Str) (fs : FS) (arOk : Bool) (tA : Nat) :
    ArchRes :=
  if !objs.isEmpty && objs.all (fun o => (fs o).isSome) then
    let srcLastMod := maxMtime fs objs
    let invoked : Bool :=
      match fs libFile with
      | none => true
      | some tL => decide (srcLastMod > tL)
    if invoked then
      ⟨[Event.removeFile libFile, Event.runArchiver (arCmd libFile objs)], arOk,
        if arOk then fsSet (fsDelete fs libFile) libFile tA else fsDelete fs libFile, false⟩
    else ⟨[], true, fs, false⟩
  else ⟨[], false, fs, true⟩

/-- build.c lines 226-235: concatenated glob-expansion results. -/
def inputsOf (env : PipelineEnv) : List Str := env.globResults.flatten

/-- build.c lines 239-247: non-object entries of the object directory are
removed during the scan. -/
def junkOf (env : PipelineEnv) : List Str :=
  env.dirEntries.filter (fun p => !endsWith p (str ".obj"))

/-- build.c lines 239-247: object files found in the object directory. -/
def existingOf (env : PipelineEnv) : List Str :=
  env.dirEntries.filter (fun p => endsWith p (str ".obj"))

def scanEventsOf (env : PipelineEnv) : List Event := (junkOf env).map Event.removeFile

def fs1Of (env : PipelineEnv) : FS := fsDeleteAll env.fs (junkOf env)

def preOf (cfg : LibConfig) (env : PipelineEnv) : PreAcc := preLoop cfg (inputsOf env)

/-- build.c line 269: the preprocess batch wait succeeds iff every launched
preprocess succeeded. -/
def preOkOf (cfg : LibConfig) (env : PipelineEnv) : Bool :=
  (preOf cfg env).cmds.all env.procOk

def compOf (cfg : LibConfig) (env : PipelineEnv) (prev tlog0 : Log) : CompAcc :=
  compLoop cfg prev (fs1Of env) env.hashOf tlog0 (inputsOf env)

/-- build.c lines 319-325: existing objects never claimed by a current
input. -/
def unclaimedOf (cfg : LibConfig) (env : PipelineEnv) (prev tlog0 : Log) : List Str :=
  (existingOf env).filter (fun e => !decide (e ∈ (compOf cfg env prev tlog0).outputObjs))

def evictEventsOf (cfg : LibConfig) (env : PipelineEnv) (prev tlog0 : Log) : List Event :=
  (unclaimedOf cfg env prev tlog0).map Event.removeFile

def fs2Of (cfg : LibConfig) (env : PipelineEnv) (prev tlog0 : Log) : FS :=
  fsDeleteAll (fs1Of env) (unclaimedOf cfg env prev tlog0)

/-- build.c line 331: the compile batch wait succeeds iff every launched
compile succeeded. -/
def compOkOf (cfg : LibConfig) (env : PipelineEnv) (prev tlog0 : Log) : Bool :=
  (compOf cfg env prev tlog0).launchedCmds.all env.procOk

/-- After a successful compile batch the recompiled objects carry this
run's compile timestamp. -/
def fs3Of (cfg : LibConfig) (env : PipelineEnv) (prev tlog0 : Log) : FS :=
  fsSetAll (fs2Of cfg env prev tlog0) (compOf cfg env prev tlog0).recompiled env.tCompile

def arOf (cfg : LibConfig) (env : PipelineEnv) (prev tlog0 : Log) : ArchRes :=
  archiveStage cfg.libFile (compOf cfg env prev tlog0).outputObjs
    (fs3Of cfg env prev tlog0) env.arOk env.tArchive

structure RunResult where
  outcome : Outcome
  statusAssignments : List ProcessStatus
  events : List Event
  fs : FS
  thisLog : Log

/-- build.c lines 216-383 (compileStaticLib), one full pipeline run over an
environment.  Mirrors the code's order: status assert and Launched
assignment; directory scan with junk removal; glob expansion with the
fatal empty-match assert (before the scan in the code, so an empty match
produces no events at all); preprocess launch loop; preprocess batch wait;
cache-decision/compile loop; stale-object eviction; compile batch wait;
archive stage; final status assignment. -/
def runPipeline (cfg : LibConfig) (env : PipelineEnv) (prev tlog0 : Log)
    (status0 : ProcessStatus) : RunResult :=
  if status0 = ProcessStatus.notLaunched then
    if (inputsOf env).isEmpty then
      ⟨.fatal, [.launched], [], env.fs, tlog0⟩
    else if (preOf cfg env).fatal then
      ⟨.fatal, [.launched], scanEventsOf env ++ (preOf cfg env).events, fs1Of env, tlog0⟩
    else if preOkOf cfg env = false then
      ⟨.completed false, [.launched, .completedFailed],
        scanEventsOf env ++ (preOf cfg env).events, fs1Of env, tlog0⟩
    else if (compOf cfg env prev tlog0).fatal then
      ⟨.fatal, [.launched],
        scanEventsOf env ++ (preOf cfg env).events ++ (compOf cfg env prev tlog0).events,
        fs1Of env, (compOf cfg env prev tlog0).thisLog⟩
    else if compOkOf cfg env prev tlog0 = false then
      ⟨.completed false, [.launched, .completedFailed],
        scanEventsOf env ++ (preOf cfg env).events ++ (compOf cfg env prev tlog0).events
          ++ evictEventsOf cfg env prev tlog0,
        fs2Of cfg env prev tlog0, (compOf cfg env prev tlog0).thisLog⟩
    else if (arOf cfg env prev tlog0).fatal then
      ⟨.fatal, [.launched],
        scanEventsOf env ++ (preOf cfg env).events ++ (compOf cfg env prev tlog0).events
          ++ evictEventsOf cfg env prev tlog0 ++ (arOf cfg env prev tlog0).events,
        (arOf cfg env prev tlog0).fs, (compOf cfg env prev tlog0).thisLog⟩
    else
      ⟨.completed (arOf cfg env prev tlog0).ok,
        [.launched,
          if (arOf cfg env prev tlog0).ok then .completedSuccess else .completedFailed],
        scanEventsOf env ++ (preOf cfg env).events ++ (compOf cfg env prev tlog0).events
          ++ evictEventsOf cfg env prev tlog0 ++ (arOf cfg env prev tlog0).events,
        (arOf cfg env prev tlog0).fs, (compOf cfg env prev tlog0).thisLog⟩
  else ⟨.fatal, [], [], env.fs, tlog0⟩

def countPreprocess (evs : List Event) : Nat :=
  (evs.filter (fun e => match e with | .launchPreprocess _ => true | _ => false)).length

def countCompile (evs : List Event) : Nat :=
  (evs.filter (fun e => match e with | .launchCompile _ => true | _ => false)).length

def countArchiver (evs : List Event) : Nat :=
  (evs.filter (fun e => match e with | .runArchiver _ => true | _ => false)).length

theorem shget_shput_same (m : Log) (k : Str) (v : ObjInfo) :
    shget (shput m k v) k = some v := by
  induction m with
  | nil => simp [shput, shget]
  | cons e rest ih =>
    by_cases h : e.1 = k
    · simp [shput, shget, h]
    · simp [shput, shget, h, ih]

theorem shget_shput_other (m : Log) (k k' : Str) (v : ObjInfo) (h : k' ≠ k) :
    shget (shput m k v) k' = shget m k' := by
  have hk : ¬(k = k') := fun hh => h hh.symm
  induction m with
  | nil => simp [shput, shget, hk]
  | cons e rest ih =>
    by_cases he : e.1 = k
    · have he' : ¬(e.1 = k') := by rw [he]; exact hk
      simp [shput, shget, he, he', hk]
    · by_cases he' : e.1 = k'
      · simp [shput, shget, he, he', h]
      · simp [shput, shget, he, he', ih]

theorem shget_eq_none_of_nil (k : Str) : shget [] k = none := rfl

theorem shget_isSome_ne_nil (m : Log) (k : Str) (v : ObjInfo)
    (h : shget m k = some v) : m ≠ [] := by
  intro hnil; subst hnil; simp [shget] at h

example : shouldRecompile [] (fun _ => some 1) (str "a.obj") 3 (str "cc") = true := by decide

example :
    shouldRecompile [(str "a.obj", ⟨str "cc", 3⟩)] (fun _ => some 1)
      (str "a.obj") 3 (str "cc") = false := by decide

theorem toHexFuel_congr :
    ∀ f f' n, n < f → n < f' → toHexFuel f n = toHexFuel f' n := by
  intro f
  induction f with
  | zero => intro f' n h; omega
  | succ f ih =>
    intro f' n h h'
    match f', h' with
    | f' + 1, h' =>
      by_cases h16 : n < 16
      · simp [toHexFuel, h16]
      · have hdiv : n / 16 < n := Nat.div_lt_self (by omega) (by omega)
        simp [toHexFuel, h16]
        exact ih f' (n / 16) (by omega) (by omega)

theorem toHex_eq (n : Nat) :
    toHex n = if n < 16 then [toHexDigit n] else toHex (n / 16) ++ [toHexDigit (n % 16)] := by
  by_cases h16 : n < 16
  · simp [toHex, toHexFuel, h16]
  · have hdiv : n / 16 < n := Nat.div_lt_self (by omega) (by omega)
    rw [if_neg h16]
    show toHexFuel (n + 1) n = toHex (n / 16) ++ [toHexDigit (n % 16)]
    have hstep : toHexFuel (n + 1) n = toHexFuel n (n / 16) ++ [toHexDigit (n % 16)] := by
      simp [toHexFuel, h16]
    rw [hstep, toHexFuel_congr n (n / 16 + 1) (n / 16) (by omega) (by omega)]
    rfl

theorem lineBreak_snd_le (s : Str) : (lineBreak s).2.length ≤ s.length := by
  induction s with
  | nil => simp [lineBreak]
  | cons c rest ih =>
    by_cases h : c = '\n' <;> simp [lineBreak, h] <;> omega

theorem lineBreak_cons_le (c : Char) (rest : Str) :
    (lineBreak (c :: rest)).2.length ≤ rest.length := by
  by_cases h : c = '\n'
  · simp [lineBreak, h]
  · have := lineBreak_snd_le rest
    simp [lineBreak, h]
    omega

theorem splitLinesFuel_congr :
    ∀ f f' (s : Str), s.length ≤ f → s.length ≤ f' → splitLinesFuel f s = splitLinesFuel f' s := by
  intro f
  induction f with
  | zero =>
    intro f' s h _
    have hs : s = [] := List.eq_nil_of_length_eq_zero (by omega)
    subst hs
    cases f' <;> simp [splitLinesFuel]
  | succ f ih =>
    intro f' s h h'
    match s with
    | [] => cases f' <;> simp [splitLinesFuel]
    | c :: rest =>
      match f', h' with
      | f' + 1, h' =>
        have hlb := lineBreak_cons_le c rest
        simp only [splitLinesFuel]
        have : (lineBreak (c :: rest)).2.length ≤ f := by
          simp only [List.length_cons] at h; omega
        have that : (lineBreak (c :: rest)).2.length ≤ f' := by
          simp only [List.length_cons] at h'; omega
        rw [ih f' (lineBreak (c :: rest)).2 this that]

theorem splitLines_nil : splitLines [] = [] := rfl

theorem splitLines_cons (c : Char) (rest : Str) :
    splitLines (c :: rest) =
      (lineBreak (c :: rest)).1 :: splitLines (lineBreak (c :: rest)).2 := by
  have hlb := lineBreak_cons_le c rest
  simp only [splitLines, List.length_cons, splitLinesFuel]
  rw [splitLinesFuel_congr rest.length (lineBreak (c :: rest)).2.length
        (lineBreak (c :: rest)).2 hlb (le_refl _)]

example :
    parseLog (writeLogStr [(str "a.obj", ⟨str "gcc -c a.c", 255⟩)] logColumnNames)
        logColumnNames
      = ⟨[(str "a.obj", ⟨str "gcc -c a.c", 255⟩)], true⟩ := by decide

theorem hexDigits_length : hexDigits.length = 16 := rfl

theorem hexDigitVal_toHexDigit (n : Nat) (h : n < 16) :
    hexDigitVal (toHexDigit n) = some n := by
  interval_cases n <;> decide

theorem okChar_toHexDigit (n : Nat) : okChar (toHexDigit n) := by
  by_cases h : n < 16
  · interval_cases n <;> decide
  · have hlen : hexDigits.length ≤ n := by rw [hexDigits_length]; omega
    rw [toHexDigit, List.getD_eq_default _ _ hlen]
    decide

theorem toHex_ne_nil (n : Nat) : toHex n ≠ [] := by
  rw [toHex_eq]
  by_cases h : n < 16 <;> simp [h]

theorem okStr_toHex (n : Nat) : okStr (toHex n) := by
  induction n using Nat.strong_induction_on with
  | _ n ih =>
    rw [toHex_eq]
    by_cases h : n < 16
    · rw [if_pos h]
      intro c hc
      simp at hc
      subst hc
      exact okChar_toHexDigit n
    · rw [if_neg h]
      intro c hc
      rcases List.mem_append.1 hc with hc' | hc'
      · exact ih (n / 16) (Nat.div_lt_self (by omega) (by omega)) c hc'
      · simp at hc'
        subst hc'
        exact okChar_toHexDigit (n % 16)

theorem okStr_hexLit (n : Nat) : okStr (hexLit n) := by
  intro c hc
  rcases hc with _ | ⟨_, hc⟩
  · decide
  · rcases hc with _ | ⟨_, hc⟩
    · decide
    · exact okStr_toHex n c hc

theorem parseHexAux_append (acc : Nat) (xs ys : Str) :
    parseHexAux acc (xs ++ ys) =
      match parseHexAux acc xs with
      | some v => parseHexAux v ys
      | none => none := by
  induction xs generalizing acc with
  | nil => simp [parseHexAux]
  | cons c rest ih =>
    simp only [List.cons_append, parseHexAux]
    cases h : hexDigitVal c with
    | none => rfl
    | some d => simp [ih]

theorem parseHexAux_toHex (n : Nat) :
    ∀ acc, parseHexAux acc (toHex n) = some (acc * 16 ^ (toHex n).length + n) := by
  induction n using Nat.strong_induction_on with
  | _ n ih =>
    intro acc
    rw [toHex_eq]
    by_cases h : n < 16
    · rw [if_pos h]
      simp [parseHexAux, hexDigitVal_toHexDigit n h]
      omega
    · have hdiv : n / 16 < n := Nat.div_lt_self (by omega) (by omega)
      rw [if_neg h, parseHexAux_append, ih (n / 16) hdiv acc]
      have hm : n % 16 < 16 := Nat.mod_lt _ (by omega)
      simp [parseHexAux, hexDigitVal_toHexDigit _ hm]
      have hpow : 16 ^ ((toHex (n / 16)).length + 1) = 16 ^ (toHex (n / 16)).length * 16 := by
        rw [pow_succ]
      rw [hpow]
      have hdm : 16 * (n / 16) + n % 16 = n := by omega
      ring_nf
      omega

theorem parseU64_hexLit (n : Nat) (h : n < 2 ^ 64) : parseU64 (hexLit n) = some n := by
  have hne := toHex_ne_nil n
  have hie : (toHex n).isEmpty = false := by
    cases htx : toHex n with
    | nil => exact absurd htx hne
    | cons a b => rfl
  have hx := parseHexAux_toHex n 0
  simp at hx
  simp [hexLit, parseU64, hie, hx]
  omega

theorem findChar_split (c : Char) (pre post : Str) (h : c ∉ pre) :
    findChar c (pre ++ c :: post) = some (pre, post) := by
  induction pre with
  | nil => simp [findChar]
  | cons x xs ih =>
    have hx : ¬(x = c) := fun hh => h (by simp [hh])
    have hxs : c ∉ xs := fun hm => h (List.mem_cons_of_mem _ hm)
    simp [findChar, hx, ih hxs]

theorem getStrInQuotes_spec (pre f rest : Str) (hpre : '"' ∉ pre) (hf : '"' ∉ f) :
    getStrInQuotes (pre ++ quoteField f rest) = some (f, rest) := by
  have h1 : findChar '"' (pre ++ '"' :: (f ++ ('"' :: rest))) = some (pre, f ++ ('"' :: rest)) :=
    findChar_split _ _ _ hpre
  have h2 : findChar '"' (f ++ ('"' :: rest)) = some (f, rest) := findChar_split _ _ _ hf
  simp [getStrInQuotes, quoteField, h1, h2]

theorem get3_rowLine (a b c : Str) (ha : '"' ∉ a) (hb : '"' ∉ b) (hc : '"' ∉ c) :
    get3StrInQuotes (rowLine a b c) = some ⟨a, b, c⟩ := by
  have h1 := getStrInQuotes_spec [] a (',' :: quoteField b (',' :: quoteField c [])) (by simp) ha
  have h2 := getStrInQuotes_spec [','] b (',' :: quoteField c []) (by decide) hb
  have h3 := getStrInQuotes_spec [','] c [] (by decide) hc
  simp only [List.nil_append, List.singleton_append] at h1 h2 h3
  simp [get3StrInQuotes, rowLine, h1, h2, h3]

theorem lineBreak_eq (line rest : Str) (h : '\n' ∉ line) :
    lineBreak (line ++ '\n' :: rest) = (line, rest) := by
  induction line with
  | nil => simp [lineBreak]
  | cons x xs ih =>
    have hx : ¬(x = '\n') := fun hh => h (by simp [hh])
    have hxs : '\n' ∉ xs := fun hm => h (List.mem_cons_of_mem _ hm)
    simp [lineBreak, hx, ih hxs]

theorem splitLines_line (line rest : Str) (h : '\n' ∉ line) :
    splitLines (line ++ '\n' :: rest) = line :: splitLines rest := by
  cases hl : line with
  | nil =>
    rw [List.nil_append, splitLines_cons]
    simp [lineBreak]
  | cons x xs =>
    subst hl
    rw [List.cons_append, splitLines_cons, ← List.cons_append, lineBreak_eq _ _ h]

theorem okStr_no_quote (s : Str) (h : okStr s) : '"' ∉ s :=
  fun hm => (h _ hm).2.2 rfl

theorem okStr_no_newline (s : Str) (h : okStr s) : '\n' ∉ s := by
  intro hm
  have h1 := (h _ hm).1
  have h2 : ('\n').toNat = 10 := rfl
  omega

theorem mem_quoteField (x : Char) (f rest : Str) :
    x ∈ quoteField f rest ↔ x = '"' ∨ x ∈ f ∨ x ∈ rest := by
  simp [quoteField, List.mem_cons, List.mem_append]
  tauto

theorem no_newline_rowLine (a b c : Str)
    (ha : '\n' ∉ a) (hb : '\n' ∉ b) (hc : '\n' ∉ c) : '\n' ∉ rowLine a b c := by
  intro hm
  rw [rowLine] at hm
  rcases (mem_quoteField _ _ _).1 hm with h | h | h
  · exact absurd h (by decide)
  · exact ha h
  · rcases List.mem_cons.1 h with h' | h'
    · exact absurd h' (by decide)
    · rcases (mem_quoteField _ _ _).1 h' with h2 | h2 | h2
      · exact absurd h2 (by decide)
      · exact hb h2
      · rcases List.mem_cons.1 h2 with h3 | h3
        · exact absurd h3 (by decide)
        · rcases (mem_quoteField _ _ _).1 h3 with h4 | h4 | h4
          · exact absurd h4 (by decide)
          · exact hc h4
          · simp at h4

theorem splitLines_rows (log : Log)
    (hlog : ∀ e ∈ log, okStr e.1 ∧ okStr e.2.compileCmd) :
    splitLines ((log.map (fun e => rowLine e.1 e.2.compileCmd (hexLit e.2.preprocessedHash) ++ ['\n'])).flatten)
      = log.map rowOf := by
  induction log with
  | nil => simp [splitLines_nil]
  | cons e rest ih =>
    obtain ⟨h1, h2⟩ := hlog e (by simp)
    have hnl : '\n' ∉ rowLine e.1 e.2.compileCmd (hexLit e.2.preprocessedHash) :=
      no_newline_rowLine _ _ _ (okStr_no_newline _ h1) (okStr_no_newline _ h2)
        (okStr_no_newline _ (okStr_hexLit _))
    simp only [List.map_cons, List.flatten_cons]
    rw [List.append_assoc, List.singleton_append]
    rw [splitLines_line _ _ hnl]
    rw [ih (fun e' he' => hlog e' (by simp [he']))]
    rfl

theorem splitLines_writeLog (log : Log) (cols : LogCols)
    (hc0 : okStr cols.objPath) (hc1 : okStr cols.compileCmd) (hc2 : okStr cols.preprocessedHash)
    (hlog : ∀ e ∈ log, okStr e.1 ∧ okStr e.2.compileCmd) :
    splitLines (writeLogStr log cols) =
      rowLine cols.objPath cols.compileCmd cols.preprocessedHash :: log.map rowOf := by
  have hnl : '\n' ∉ rowLine cols.objPath cols.compileCmd cols.preprocessedHash :=
    no_newline_rowLine _ _ _ (okStr_no_newline _ hc0) (okStr_no_newline _ hc1)
      (okStr_no_newline _ hc2)
  simp only [writeLogStr, logRow]
  rw [List.append_assoc, List.singleton_append, splitLines_line _ _ hnl]
  rw [splitLines_rows log hlog]

theorem get3_rowOf (e : Str × ObjInfo) (h1 : okStr e.1) (h2 : okStr e.2.compileCmd) :
    get3StrInQuotes (rowOf e) = some ⟨e.1, e.2.compileCmd, hexLit e.2.preprocessedHash⟩ :=
  get3_rowLine _ _ _ (okStr_no_quote _ h1) (okStr_no_quote _ h2)
    (okStr_no_quote _ (okStr_hexLit _))

theorem parseRows_rows (log : Log) (acc : Log)
    (hlog : ∀ e ∈ log, okStr e.1 ∧ okStr e.2.compileCmd ∧ e.2.preprocessedHash < 2 ^ 64) :
    parseRows acc (log.map rowOf) =
      ⟨log.foldl (fun m e => shput m e.1 e.2) acc, true⟩ := by
  induction log generalizing acc with
  | nil => simp [parseRows]
  | cons e rest ih =>
    obtain ⟨h1, h2, h3⟩ := hlog e (by simp)
    have hget := get3_rowOf e h1 h2
    have hp := parseU64_hexLit e.2.preprocessedHash h3
    simp only [List.map_cons, parseRows, hget, hp, List.foldl_cons]
    exact ih _ (fun e' he' => hlog e' (by simp [he']))

theorem shget_foldl_not_mem (rest : Log) (m : Log) (k : Str)
    (h : k ∉ rest.map Prod.fst) :
    shget (rest.foldl (fun m e => shput m e.1 e.2) m) k = shget m k := by
  induction rest generalizing m with
  | nil => rfl
  | cons e r ih =>
    simp only [List.map_cons, List.mem_cons] at h
    push_neg at h
    rw [List.foldl_cons, ih _ h.2, shget_shput_other _ _ _ _ h.1]

theorem shget_foldl_shput (log : Log) (m0 : Log) (k : Str) (v : ObjInfo)
    (hnd : (log.map Prod.fst).Nodup) (hmem : (k, v) ∈ log) :
    shget (log.foldl (fun m e => shput m e.1 e.2) m0) k = some v := by
  induction log generalizing m0 with
  | nil => simp at hmem
  | cons e rest ih =>
    rw [List.map_cons, List.nodup_cons] at hnd
    obtain ⟨hk, hnd'⟩ := hnd
    rcases List.mem_cons.1 hmem with heq | hmem'
    · subst heq
      rw [List.foldl_cons, shget_foldl_not_mem rest _ k hk, shget_shput_same]
    · exact ih _ hnd' hmem'

theorem parseRows_success_iff (rows : List Str) :
    ∀ acc, (parseRows acc rows).success = true ↔ ∀ r ∈ rows, (get3StrInQuotes r).isSome := by
  induction rows with
  | nil => intro acc; simp [parseRows]
  | cons r rest ih =>
    intro acc
    cases hr : get3StrInQuotes r with
    | none => simp [parseRows, hr]
    | some row =>
      cases hp : parseU64 row.s2 with
      | some h => simp [parseRows, hr, hp, ih]
      | none => simp [parseRows, hr, hp, ih]

theorem parseLog_eq_parseRows (log : Log)
    (hok : ∀ e ∈ log, okStr e.1 ∧ okStr e.2.compileCmd ∧ e.2.preprocessedHash < 2 ^ 64) :
    parseLog (writeLogStr log logColumnNames) logColumnNames
      = parseRows [] (log.map rowOf) := by
  have hsplit := splitLines_writeLog log logColumnNames (by decide) (by decide) (by decide)
    (fun e he => ⟨(hok e he).1, (hok e he).2.1⟩)
  have hhdr :
      get3StrInQuotes (rowLine logColumnNames.objPath logColumnNames.compileCmd
          logColumnNames.preprocessedHash) =
        some ⟨logColumnNames.objPath, logColumnNames.compileCmd,
          logColumnNames.preprocessedHash⟩ := by decide
  unfold parseLog
  rw [hsplit]
  show (match get3StrInQuotes (rowLine logColumnNames.objPath logColumnNames.compileCmd
      logColumnNames.preprocessedHash) with
    | none => (⟨[], false⟩ : ParseLogResult)
    | some h3 =>
      if h3.s0 = logColumnNames.objPath ∧ h3.s1 = logColumnNames.compileCmd ∧
          h3.s2 = logColumnNames.preprocessedHash then
        parseRows [] (log.map rowOf)
      else ⟨[], false⟩) = parseRows [] (log.map rowOf)
  rw [hhdr]
  show (if (str "objPath") = logColumnNames.objPath ∧ (str "compileCmd") = logColumnNames.compileCmd ∧
      (str "preprocessedHash") = logColumnNames.preprocessedHash then
      parseRows [] (log.map rowOf)
    else (⟨[], false⟩ : ParseLogResult)) = parseRows [] (log.map rowOf)
  rw [if_pos (by decide)]

/-- C3: serializing a compile-log map whose object paths and command strings
consist of ordinary printable characters without embedded double quotes with
the log writer, then parsing the result back with the log parser using the
same three column names, succeeds and reproduces the identical
(compile command, hash) pair under the identical object-path key. -/
theorem C3_writeLog_parseLog_roundtrip (log : Log)
    (hkeys : (log.map Prod.fst).Nodup)
    (hok : ∀ e ∈ log, okStr e.1 ∧ okStr e.2.compileCmd ∧ e.2.preprocessedHash < 2 ^ 64) :
    (parseLog (writeLogStr log logColumnNames) logColumnNames).success = true ∧
    ∀ e ∈ log,
      shget (parseLog (writeLogStr log logColumnNames) logColumnNames).log e.1
        = some e.2 := by
  rw [parseLog_eq_parseRows log hok, parseRows_rows log [] hok]
  refine ⟨rfl, ?_⟩
  intro e he
  exact shget_foldl_shput log [] e.1 e.2 hkeys he

/-- Witness for C3 at a concrete two-entry log. -/
theorem C3_witness :
    (parseLog (writeLogStr
        [(str "a.obj", ⟨str "gcc -g -c a.c", 255⟩), (str "b.obj", ⟨str "gcc -g -c b.c", 7⟩)]
        logColumnNames) logColumnNames).success = true ∧
    ∀ e ∈ [(str "a.obj", (⟨str "gcc -g -c a.c", 255⟩ : ObjInfo)),
           (str "b.obj", ⟨str "gcc -g -c b.c", 7⟩)],
      shget (parseLog (writeLogStr
          [(str "a.obj", ⟨str "gcc -g -c a.c", 255⟩), (str "b.obj", ⟨str "gcc -g -c b.c", 7⟩)]
          logColumnNames) logColumnNames).log e.1 = some e.2 :=
  C3_writeLog_parseLog_roundtrip
    [(str "a.obj", ⟨str "gcc -g -c a.c", 255⟩), (str "b.obj", ⟨str "gcc -g -c b.c", 7⟩)]
    (by decide) (by decide)

/-- C5: loading the cache file is strict but never fatal.  If the header row
does not parse as exactly the three expected quoted column names in order,
the whole file is rejected (empty log, success = false).  If any data row
fails to parse as three quoted fields, loading reports failure.  A failed
parse always degrades to an empty previous-run cache in main, never an
abort. -/
theorem C5_parseLog_strict_not_fatal (cols : LogCols) (s : Str) :
    (splitLines s = [] → parseLog s cols = ⟨[], false⟩) ∧
    (∀ hdr rest, splitLines s = hdr :: rest → get3StrInQuotes hdr = none →
        parseLog s cols = ⟨[], false⟩) ∧
    (∀ hdr rest h3, splitLines s = hdr :: rest → get3StrInQuotes hdr = some h3 →
        ¬(h3.s0 = cols.objPath ∧ h3.s1 = cols.compileCmd ∧ h3.s2 = cols.preprocessedHash) →
        parseLog s cols = ⟨[], false⟩) ∧
    (∀ hdr rest, splitLines s = hdr :: rest → (∃ r ∈ rest, get3StrInQuotes r = none) →
        (parseLog s cols).success = false) ∧
    ((parseLog s cols).success = false → loadPrevLog (some s) cols = []) := by
  refine ⟨?_, ?_, ?_, ?_, ?_⟩
  · intro h
    unfold parseLog
    rw [h]
  · intro hdr rest hs hg
    unfold parseLog
    rw [hs]
    simp [hg]
  · intro hdr rest h3 hs hg hne
    unfold parseLog
    rw [hs]
    simp [hg, hne]
  · intro hdr rest hs hex
    obtain ⟨r, hr, hrn⟩ := hex
    have hfail : ¬∀ r' ∈ rest, (get3StrInQuotes r').isSome := by
      intro hall
      have hsome := hall r hr
      rw [hrn] at hsome
      simp at hsome
    have hsucc : (parseRows [] rest).success = false := by
      cases hsucc : (parseRows [] rest).success with
      | false => rfl
      | true => exact absurd ((parseRows_success_iff rest []).1 hsucc) hfail
    unfold parseLog
    rw [hs]
    cases hg : get3StrInQuotes hdr with
    | none => simp [hg]
    | some h3 =>
      by_cases hcond : h3.s0 = cols.objPath ∧ h3.s1 = cols.compileCmd ∧
          h3.s2 = cols.preprocessedHash
      · simp [hg, hcond, hsucc]
      · simp [hg, hcond]
  · intro h
    simp [loadPrevLog, h]

/-- Witness for C5: a file whose header has the wrong names is wholly
rejected; a file with a good header but a malformed second row fails and
loads as an empty cache. -/
theorem C5_witness :
    parseLog (str "\"x\",\"y\",\"z\"\n\"a\",\"b\",\"0x1\"\n") logColumnNames = ⟨[], false⟩ ∧
    (parseLog (str "\"objPath\",\"compileCmd\",\"preprocessedHash\"\nnot a row\n")
        logColumnNames).success = false ∧
    loadPrevLog (some (str "\"objPath\",\"compileCmd\",\"preprocessedHash\"\nnot a row\n"))
        logColumnNames = [] := by
  refine ⟨?_, ?_, ?_⟩
  · exact (C5_parseLog_strict_not_fatal logColumnNames _).2.2.1
      (str "\"x\",\"y\",\"z\"") [str "\"a\",\"b\",\"0x1\""] ⟨str "x", str "y", str "z"⟩
      (by decide) (by decide) (by decide)
  · exact (C5_parseLog_strict_not_fatal logColumnNames _).2.2.2.1
      (str "\"objPath\",\"compileCmd\",\"preprocessedHash\"") [str "not a row"]
      (by decide) ⟨str "not a row", by decide, by decide⟩
  · exact (C5_parseLog_strict_not_fatal logColumnNames _).2.2.2.2 (by decide)

/-- C10: in the data-row loop of parseLog, a row that parses as three quoted
fields whose hash field is not a parsable unsigned 64-bit number is silently
skipped (no entry inserted) and parsing continues identically on the
remaining rows; the loop reports success exactly when every row parses as
three quoted fields (so a bad-hash row alone never makes loading fail). -/
theorem C10_bad_hash_row_skipped :
    (∀ (acc : Log) (line : Str) (rest : List Str) (row : String3),
        get3StrInQuotes line = some row → parseU64 row.s2 = none →
        parseRows acc (line :: rest) = parseRows acc rest) ∧
    (∀ (rows : List Str) (acc : Log),
        (parseRows acc rows).success = true ↔ ∀ r ∈ rows, (get3StrInQuotes r).isSome) := by
  constructor
  · intro acc line rest row hget hbad
    simp [parseRows, hget, hbad]
  · intro rows acc
    exact parseRows_success_iff rows acc

/-- Witness for C10: a concrete bad-hash row is skipped while the following
good row is still applied, and the loop still succeeds. -/
theorem C10_witness :
    parseRows [] [str "\"a.obj\",\"cc\",\"nothex\"", str "\"b.obj\",\"dd\",\"0x5\""]
      = parseRows [] [str "\"b.obj\",\"dd\",\"0x5\""] ∧
    ((parseRows [] [str "\"a.obj\",\"cc\",\"nothex\"", str "\"b.obj\",\"dd\",\"0x5\""]).success
        = true ↔
      ∀ r ∈ [str "\"a.obj\",\"cc\",\"nothex\"", str "\"b.obj\",\"dd\",\"0x5\""],
        (get3StrInQuotes r).isSome) := by
  constructor
  · exact C10_bad_hash_row_skipped.1 [] (str "\"a.obj\",\"cc\",\"nothex\"")
      [str "\"b.obj\",\"dd\",\"0x5\""] ⟨str "a.obj", str "cc", str "nothex"⟩
      (by decide) (by decide)
  · exact C10_bad_hash_row_skipped.2 _ []

/-- C1 counterexample: a previous-run entry exists for the object path, its
stored hash equals the fresh hash and its stored command equals the fresh
command, yet the code still forces recompilation (no hit) because the
object file is absent from disk — so "hit iff entry exists and hash and
command match" is false as stated. -/
theorem C1_counterexample :
    shget [(str "lib/a.obj", ⟨str "gcc -g -c a.c", 5⟩)] (str "lib/a.obj")
        = some ⟨str "gcc -g -c a.c", 5⟩ ∧
    shouldRecompile [(str "lib/a.obj", ⟨str "gcc -g -c a.c", 5⟩)] (fun _ => none)
        (str "lib/a.obj") 5 (str "gcc -g -c a.c") = true := by
  constructor
  · decide
  · decide

/-- C1 amended: the candidate is a hit (no recompilation) iff a previous
entry exists for the object path AND its stored hash equals the fresh hash
AND its stored command equals the fresh command AND the output object file
already exists on disk. -/
theorem C1_cache_hit_iff (prev : Log) (fs : Str → Option Nat) (obj : Str)
    (h : Nat) (c : Str) :
    shouldRecompile prev fs obj h c = false ↔
      ((fs obj).isSome = true ∧
        ∃ info, shget prev obj = some info ∧ info.preprocessedHash = h ∧
          info.compileCmd = c) := by
  constructor
  · intro hsr
    unfold shouldRecompile at hsr
    by_cases hcond : (!prev.isEmpty && (fs obj).isSome) = true
    · rw [if_pos hcond] at hsr
      cases hg : shget prev obj with
      | none => rw [hg] at hsr; simp at hsr
      | some info =>
        rw [hg] at hsr
        have hsr' :
            (if h = info.preprocessedHash then
              (if c = info.compileCmd then false else true) else true) = false := hsr
        by_cases hh : h = info.preprocessedHash
        · rw [if_pos hh] at hsr'
          by_cases hc : c = info.compileCmd
          · simp only [Bool.and_eq_true] at hcond
            exact ⟨hcond.2, info, rfl, hh.symm, hc.symm⟩
          · rw [if_neg hc] at hsr'; simp at hsr'
        · rw [if_neg hh] at hsr'; simp at hsr'
    · rw [if_neg hcond] at hsr; simp at hsr
  · rintro ⟨hfs, info, hg, hh, hc⟩
    subst hh
    subst hc
    have hne : prev ≠ [] := shget_isSome_ne_nil prev obj info hg
    have hemp' : prev.isEmpty = false := by
      cases prev with
      | nil => exact absurd rfl hne
      | cons a l => rfl
    unfold shouldRecompile
    simp [hemp', hfs, hg]

/-- C9: in the pipeline's cache decision, a previous-run entry that matches
both the freshly computed hash and the freshly synthesized command still
forces recompilation when the output object file is absent from disk. -/
theorem C9_missing_obj_recompiles (prev : Log) (fs : Str → Option Nat)
    (obj : Str) (info : ObjInfo) (h : Nat) (c : Str)
    (hent : shget prev obj = some info)
    (hh : info.preprocessedHash = h) (hc : info.compileCmd = c)
    (habs : fs obj = none) :
    shouldRecompile prev fs obj h c = true := by
  unfold shouldRecompile
  simp [habs]

/-- Witness for C9 at a concrete matching entry with an absent object
file. -/
theorem C9_witness :
    shouldRecompile [(str "o.obj", ⟨str "cc", 9⟩)] (fun _ => none) (str "o.obj") 9 (str "cc")
      = true :=
  C9_missing_obj_recompiles _ _ _ ⟨str "cc", 9⟩ _ _ (by decide) rfl rfl rfl

/-- C6: the command synthesizer appends the caller's link flags twice, not
once — the per-backend switch at build.c lines 199-203 already appends them
and line 204 appends them again.  Evaluated at the gcc backend in debug mode
with link flags "-lm" the synthesized command ends in "-lm -lm"; with empty
link flags no link-mode or link flags appear at all. -/
theorem C6_link_flags_appended_twice :
    constructCompileCmd .gcc false (str "-Wall") (str "a.o b.a") (str "out.bin") (str "-lm")
      = some (str "gcc -g -Wall a.o b.a -o out.bin -lm -lm") ∧
    constructCompileCmd .gcc false (str "-Wall") (str "a.o b.a") (str "out.bin") []
      = some (str "gcc -g -Wall a.o b.a -o out.bin") := by
  constructor
  · decide
  · decide

theorem fsDelete_eq (fs : FS) (q p : Str) :
    fsDelete fs q p = if p = q then none else fs p := rfl

theorem fsSet_eq (fs : FS) (q : Str) (t : Nat) (p : Str) :
    fsSet fs q t p = if p = q then some t else fs p := rfl

theorem fsDeleteAll_eq (ps : List Str) : ∀ (fs : FS) (p : Str),
    fsDeleteAll fs ps p = if p ∈ ps then none else fs p := by
  induction ps with
  | nil => intro fs p; simp [fsDeleteAll]
  | cons q rest ih =>
    intro fs p
    have hstep : fsDeleteAll fs (q :: rest) = fsDeleteAll (fsDelete fs q) rest := rfl
    rw [hstep, ih (fsDelete fs q) p]
    by_cases hp : p ∈ rest
    · simp [hp]
    · by_cases hq : p = q
      · simp [hp, hq, fsDelete]
      · simp [hp, hq, fsDelete]

theorem fsSetAll_eq (ps : List Str) (t : Nat) : ∀ (fs : FS) (p : Str),
    fsSetAll fs ps t p = if p ∈ ps then some t else fs p := by
  induction ps with
  | nil => intro fs p; simp [fsSetAll]
  | cons q rest ih =>
    intro fs p
    have hstep : fsSetAll fs (q :: rest) t = fsSetAll (fsSet fs q t) rest t := rfl
    rw [hstep, ih (fsSet fs q t) p]
    by_cases hp : p ∈ rest
    · simp [hp]
    · by_cases hq : p = q
      · simp [hp, hq, fsSet]
      · simp [hp, hq, fsSet]

theorem countPreprocess_append (a b : List Event) :
    countPreprocess (a ++ b) = countPreprocess a + countPreprocess b := by
  simp [countPreprocess, List.filter_append]

theorem countCompile_append (a b : List Event) :
    countCompile (a ++ b) = countCompile a + countCompile b := by
  simp [countCompile, List.filter_append]

theorem countArchiver_append (a b : List Event) :
    countArchiver (a ++ b) = countArchiver a + countArchiver b := by
  simp [countArchiver, List.filter_append]

theorem countCompile_removeFiles (ps : List Str) :
    countCompile (ps.map Event.removeFile) = 0 := by
  induction ps with
  | nil => rfl
  | cons p rest ih => simpa [countCompile, List.filter_cons] using ih

theorem countArchiver_removeFiles (ps : List Str) :
    countArchiver (ps.map Event.removeFile) = 0 := by
  induction ps with
  | nil => rfl
  | cons p rest ih => simpa [countArchiver, List.filter_cons] using ih

theorem countPreprocess_removeFiles (ps : List Str) :
    countPreprocess (ps.map Event.removeFile) = 0 := by
  induction ps with
  | nil => rfl
  | cons p rest ih => simpa [countPreprocess, List.filter_cons] using ih

theorem countPreprocess_launches (cmds : List Str) :
    countPreprocess (cmds.map Event.launchPreprocess) = cmds.length := by
  induction cmds with
  | nil => rfl
  | cons c rest ih => simpa [countPreprocess, List.filter_cons] using ih

theorem countCompile_launchPreprocess (cmds : List Str) :
    countCompile (cmds.map Event.launchPreprocess) = 0 := by
  induction cmds with
  | nil => rfl
  | cons c rest ih => simpa [countCompile, List.filter_cons] using ih

theorem countArchiver_launchPreprocess (cmds : List Str) :
    countArchiver (cmds.map Event.launchPreprocess) = 0 := by
  induction cmds with
  | nil => rfl
  | cons c rest ih => simpa [countArchiver, List.filter_cons] using ih

theorem foldl_max_init_le (l : List Nat) : ∀ a, a ≤ l.foldl max a := by
  induction l with
  | nil => intro a; simp
  | cons x rest ih =>
    intro a
    calc a ≤ max a x := le_max_left _ _
    _ ≤ rest.foldl max (max a x) := ih _

theorem foldl_max_le (l : List Nat) : ∀ a b, a ≤ b → (∀ x ∈ l, x ≤ b) →
    l.foldl max a ≤ b := by
  induction l with
  | nil => intro a b hab _; simpa using hab
  | cons x rest ih =>
    intro a b hab hall
    have hx : x ≤ b := hall x (by simp)
    exact ih (max a x) b (max_le hab hx) (fun y hy => hall y (by simp [hy]))

theorem mem_le_foldl_max (l : List Nat) : ∀ a x, x ∈ l → x ≤ l.foldl max a := by
  induction l with
  | nil => intro a x hx; simp at hx
  | cons y rest ih =>
    intro a x hx
    rcases List.mem_cons.1 hx with rfl | hx'
    · calc x ≤ max a x := le_max_right _ _
      _ ≤ rest.foldl max (max a x) := foldl_max_init_le _ _
    · exact ih _ x hx'

theorem endsWith_intro (s suf t : Str) (h : t ++ suf = s) : endsWith s suf = true := by
  unfold endsWith
  exact decide_eq_true ⟨t, h⟩

theorem replaceExt_shape (p ext : Str) : ∃ q, replaceExt p ext = q ++ '.' :: ext := by
  unfold replaceExt
  cases p.reverse.dropWhile (fun c => c ≠ '.') with
  | nil => exact ⟨p, rfl⟩
  | cons a stemRev => exact ⟨stemRev.reverse, rfl⟩

theorem objOutPath_endsWith (cfg : LibConfig) (i : Str) :
    endsWith (objOutPath cfg i) (str ".obj") = true := by
  obtain ⟨q, hq⟩ := replaceExt_shape (lastEntry i) (str "obj")
  apply endsWith_intro _ _ (cfg.objDir ++ '/' :: q)
  unfold objOutPath pathJoin
  rw [hq]
  have hdot : str ".obj" = '.' :: str "obj" := rfl
  rw [hdot]
  simp

theorem objOutPath_not_mem_junk (cfg : LibConfig) (env : PipelineEnv) (i : Str) :
    objOutPath cfg i ∉ junkOf env := by
  intro hm
  unfold junkOf at hm
  rw [List.mem_filter] at hm
  rw [objOutPath_endsWith] at hm
  simp at hm

theorem mem_junk_sub (env : PipelineEnv) (p : Str) (h : p ∈ junkOf env) :
    p ∈ env.dirEntries := (List.mem_filter.1 h).1

theorem mem_unclaimed_sub (cfg : LibConfig) (env : PipelineEnv) (prev tlog0 : Log) (p : Str)
    (h : p ∈ unclaimedOf cfg env prev tlog0) : p ∈ env.dirEntries := by
  unfold unclaimedOf existingOf at h
  exact (List.mem_filter.1 (List.mem_filter.1 h).1).1

theorem not_mem_unclaimed_of_output (cfg : LibConfig) (env : PipelineEnv) (prev tlog0 : Log)
    (p : Str) (hp : p ∈ (compOf cfg env prev tlog0).outputObjs) :
    p ∉ unclaimedOf cfg env prev tlog0 := by
  intro hm
  unfold unclaimedOf at hm
  have := (List.mem_filter.1 hm).2
  simp at this
  exact this hp

theorem preLoop_cons_none (cfg : LibConfig) (i : Str) (rest : List Str)
    (hc : preCmdOf cfg i = none) :
    preLoop cfg (i :: rest) = ⟨[], [], true⟩ := by
  simp only [preLoop, hc]

theorem preLoop_cons_some (cfg : LibConfig) (i : Str) (rest : List Str) (c : Str)
    (hc : preCmdOf cfg i = some c) :
    preLoop cfg (i :: rest) =
      ⟨Event.launchPreprocess c :: (preLoop cfg rest).events,
       c :: (preLoop cfg rest).cmds, (preLoop cfg rest).fatal⟩ := by
  simp only [preLoop, hc]

theorem compLoop_cons_none (cfg : LibConfig) (prev : Log) (fs : FS) (hf : Str → Nat)
    (t : Log) (i : Str) (rest : List Str) (hc : compileCmdOf cfg i = none) :
    compLoop cfg prev fs hf t (i :: rest) =
      ⟨[], [], [], t, [objOutPath cfg i], true⟩ := by
  simp only [compLoop, hc]

theorem compLoop_cons_some (cfg : LibConfig) (prev : Log) (fs : FS) (hf : Str → Nat)
    (t : Log) (i : Str) (rest : List Str) (c : Str) (hc : compileCmdOf cfg i = some c) :
    compLoop cfg prev fs hf t (i :: rest) =
      ⟨(if shouldRecompile prev fs (objOutPath cfg i) (hf (preOutPath cfg i)) c then
          [Event.launchCompile c] else [])
        ++ (compLoop cfg prev fs hf
            (shput t (objOutPath cfg i) ⟨c, hf (preOutPath cfg i)⟩) rest).events,
       (if shouldRecompile prev fs (objOutPath cfg i) (hf (preOutPath cfg i)) c then
          [c] else [])
        ++ (compLoop cfg prev fs hf
            (shput t (objOutPath cfg i) ⟨c, hf (preOutPath cfg i)⟩) rest).launchedCmds,
       (if shouldRecompile prev fs (objOutPath cfg i) (hf (preOutPath cfg i)) c then
          [objOutPath cfg i] else [])
        ++ (compLoop cfg prev fs hf
            (shput t (objOutPath cfg i) ⟨c, hf (preOutPath cfg i)⟩) rest).recompiled,
       (compLoop cfg prev fs hf
          (shput t (objOutPath cfg i) ⟨c, hf (preOutPath cfg i)⟩) rest).thisLog,
       objOutPath cfg i
         :: (compLoop cfg prev fs hf
            (shput t (objOutPath cfg i) ⟨c, hf (preOutPath cfg i)⟩) rest).outputObjs,
       (compLoop cfg prev fs hf
          (shput t (objOutPath cfg i) ⟨c, hf (preOutPath cfg i)⟩) rest).fatal⟩ := by
  simp only [compLoop, hc]

theorem preLoop_shape (cfg : LibConfig) :
    ∀ l : List Str, (preLoop cfg l).fatal = false →
      (preLoop cfg l).events = (preLoop cfg l).cmds.map Event.launchPreprocess ∧
      (preLoop cfg l).cmds.length = l.length := by
  intro l
  induction l with
  | nil => intro _; exact ⟨rfl, rfl⟩
  | cons i rest ih =>
    intro h
    cases hc : preCmdOf cfg i with
    | none => rw [preLoop_cons_none cfg i rest hc] at h; simp at h
    | some c =>
      rw [preLoop_cons_some cfg i rest c hc] at h ⊢
      simp only [] at h
      obtain ⟨h1, h2⟩ := ih h
      simp [h1, h2]

theorem compLoop_fatal_congr (cfg : LibConfig) (prev prev' : Log) (fs fs' : FS)
    (hf hf' : Str → Nat) :
    ∀ (l : List Str) (t t' : Log),
      (compLoop cfg prev fs hf t l).fatal = (compLoop cfg prev' fs' hf' t' l).fatal := by
  intro l
  induction l with
  | nil => intro t t'; rfl
  | cons i rest ih =>
    intro t t'
    cases hc : compileCmdOf cfg i with
    | none => rw [compLoop_cons_none cfg prev fs hf t i rest hc,
        compLoop_cons_none cfg prev' fs' hf' t' i rest hc]
    | some c =>
      rw [compLoop_cons_some cfg prev fs hf t i rest c hc,
        compLoop_cons_some cfg prev' fs' hf' t' i rest c hc]
      exact ih _ _

theorem compLoop_outputObjs (cfg : LibConfig) (prev : Log) (fs : FS) (hf : Str → Nat) :
    ∀ (l : List Str) (t : Log), (compLoop cfg prev fs hf t l).fatal = false →
      (compLoop cfg prev fs hf t l).outputObjs = l.map (objOutPath cfg) := by
  intro l
  induction l with
  | nil => intro t _; rfl
  | cons i rest ih =>
    intro t h
    cases hc : compileCmdOf cfg i with
    | none => rw [compLoop_cons_none cfg prev fs hf t i rest hc] at h; simp at h
    | some c =>
      rw [compLoop_cons_some cfg prev fs hf t i rest c hc] at h ⊢
      simp only [] at h ⊢
      rw [ih _ h]
      rfl

theorem compLoop_thisLog_preserve (cfg : LibConfig) (prev : Log) (fs : FS) (hf : Str → Nat) :
    ∀ (l : List Str) (t : Log) (obj : Str), obj ∉ l.map (objOutPath cfg) →
      shget ((compLoop cfg prev fs hf t l).thisLog) obj = shget t obj := by
  intro l
  induction l with
  | nil => intro t obj _; rfl
  | cons i rest ih =>
    intro t obj hobj
    simp only [List.map_cons, List.mem_cons] at hobj
    push_neg at hobj
    cases hc : compileCmdOf cfg i with
    | none => rw [compLoop_cons_none cfg prev fs hf t i rest hc]
    | some c =>
      rw [compLoop_cons_some cfg prev fs hf t i rest c hc]
      simp only []
      rw [ih _ _ hobj.2, shget_shput_other _ _ _ _ hobj.1]

theorem compLoop_thisLog_lookup (cfg : LibConfig) (prev : Log) (fs : FS) (hf : Str → Nat) :
    ∀ (l : List Str) (t : Log), (compLoop cfg prev fs hf t l).fatal = false →
      (l.map (objOutPath cfg)).Nodup →
      ∀ i ∈ l, ∃ c, compileCmdOf cfg i = some c ∧
        shget ((compLoop cfg prev fs hf t l).thisLog) (objOutPath cfg i)
          = some ⟨c, hf (preOutPath cfg i)⟩ := by
  intro l
  induction l with
  | nil => intro t _ _ i hi; simp at hi
  | cons j rest ih =>
    intro t hfat hnd i hi
    rw [List.map_cons, List.nodup_cons] at hnd
    obtain ⟨hj, hnd'⟩ := hnd
    cases hc : compileCmdOf cfg j with
    | none => rw [compLoop_cons_none cfg prev fs hf t j rest hc] at hfat; simp at hfat
    | some c =>
      rw [compLoop_cons_some cfg prev fs hf t j rest c hc] at hfat ⊢
      simp only [] at hfat ⊢
      rcases List.mem_cons.1 hi with rfl | hi'
      · refine ⟨c, hc, ?_⟩
        rw [compLoop_thisLog_preserve cfg prev fs hf rest _ _ hj]
        exact shget_shput_same _ _ _
      · exact ih _ hfat hnd' i hi'

theorem compLoop_all_hit (cfg : LibConfig) (prev : Log) (fs : FS) (hf : Str → Nat) :
    ∀ (l : List Str) (t : Log),
      (∀ i ∈ l, ∀ c, compileCmdOf cfg i = some c →
        shouldRecompile prev fs (objOutPath cfg i) (hf (preOutPath cfg i)) c = false) →
      (compLoop cfg prev fs hf t l).events = [] ∧
      (compLoop cfg prev fs hf t l).launchedCmds = [] ∧
      (compLoop cfg prev fs hf t l).recompiled = [] := by
  intro l
  induction l with
  | nil => intro t _; exact ⟨rfl, rfl, rfl⟩
  | cons i rest ih =>
    intro t hall
    cases hc : compileCmdOf cfg i with
    | none => rw [compLoop_cons_none cfg prev fs hf t i rest hc]; exact ⟨rfl, rfl, rfl⟩
    | some c =>
      rw [compLoop_cons_some cfg prev fs hf t i rest c hc]
      have hsr := hall i (by simp) c hc
      obtain ⟨h1, h2, h3⟩ :=
        ih (shput t (objOutPath cfg i) ⟨c, hf (preOutPath cfg i)⟩)
          (fun i' hi' => hall i' (by simp [hi']))
      simp [hsr, h1, h2, h3]

theorem compLoop_recompiled_sub (cfg : LibConfig) (prev : Log) (fs : FS) (hf : Str → Nat) :
    ∀ (l : List Str) (t : Log) (p : Str),
      p ∈ (compLoop cfg prev fs hf t l).recompiled → p ∈ l.map (objOutPath cfg) := by
  intro l
  induction l with
  | nil => intro t p hp; simp [compLoop] at hp
  | cons i rest ih =>
    intro t p hp
    cases hc : compileCmdOf cfg i with
    | none => rw [compLoop_cons_none cfg prev fs hf t i rest hc] at hp; simp at hp
    | some c =>
      rw [compLoop_cons_some cfg prev fs hf t i rest c hc] at hp
      simp only [] at hp
      rw [List.mem_append] at hp
      rcases hp with hp' | hp'
      · by_cases hsr :
          shouldRecompile prev fs (objOutPath cfg i) (hf (preOutPath cfg i)) c = true
        · rw [if_pos hsr] at hp'
          simp at hp'
          simp [hp']
        · rw [if_neg hsr] at hp'
          simp at hp'
      · have hrec := ih _ p hp'
        rw [List.map_cons, List.mem_cons]
        right
        exact hrec

theorem shouldRecompile_hit (prev : Log) (fs : FS) (obj : Str) (h : Nat) (c : Str)
    (hget : shget prev obj = some ⟨c, h⟩) (hfs : (fs obj).isSome = true) :
    shouldRecompile prev fs obj h c = false := by
  have hne : prev ≠ [] := shget_isSome_ne_nil _ _ _ hget
  have hemp : prev.isEmpty = false := by
    cases prev with
    | nil => exact absurd rfl hne
    | cons a l => rfl
  unfold shouldRecompile
  simp [hemp, hfs, hget]

theorem archiveStage_guard (libFile : Str) (objs : List Str) (fs : FS)
    (hne : objs ≠ []) (hval : ∀ o ∈ objs, (fs o).isSome = true) :
    (!objs.isEmpty && objs.all fun o => (fs o).isSome) = true := by
  have he : objs.isEmpty = false := by
    cases objs with
    | nil => exact absurd rfl hne
    | cons a l => rfl
  have ha : objs.all (fun o => (fs o).isSome) = true := List.all_eq_true.2 hval
  simp [he, ha]

/-- C4: in the archive stage, the archiver is invoked iff the archive file
is absent or the latest modification timestamp over the current object
files is strictly newer than the archive's; when invoked, the old archive
is deleted first and the archiver runs exactly once over the full object
set; otherwise the stage emits nothing. -/
theorem C4_archiver_invoked_iff (libFile : Str) (objs : List Str) (fs : FS)
    (arOk : Bool) (tA : Nat)
    (hne : objs ≠ []) (hval : ∀ o ∈ objs, (fs o).isSome = true) :
    (archiveStage libFile objs fs arOk tA).fatal = false ∧
    (fs libFile = none ∨ (∃ tL, fs libFile = some tL ∧ maxMtime fs objs > tL) →
      (archiveStage libFile objs fs arOk tA).events =
        [Event.removeFile libFile, Event.runArchiver (arCmd libFile objs)]) ∧
    (∀ tL, fs libFile = some tL → ¬maxMtime fs objs > tL →
      (archiveStage libFile objs fs arOk tA).events = []) := by
  have hg := archiveStage_guard libFile objs fs hne hval
  refine ⟨?_, ?_, ?_⟩
  · unfold archiveStage
    rw [if_pos hg]
    cases hlib : fs libFile with
    | none => simp [hlib]
    | some tL =>
      by_cases hgt : maxMtime fs objs > tL
      · simp [hlib, hgt]
      · simp [hlib, hgt]
  · intro hinv
    unfold archiveStage
    rw [if_pos hg]
    rcases hinv with hlib | ⟨tL, hlib, hgt⟩
    · simp [hlib]
    · simp [hlib, hgt]
  · intro tL hlib hgt
    unfold archiveStage
    rw [if_pos hg]
    simp [hlib, hgt]

/-- Witness for C4: one fresh object and no archive file — the archiver is
invoked (remove, then one archiver run over the whole set); with an archive
newer than the object, nothing is emitted. -/
theorem C4_witness :
    ((archiveStage (str "z.a") [str "od/a.obj"]
        (fun p => if p = str "od/a.obj" then some 5 else none) true 9).fatal = false ∧
      ((fun p => if p = str "od/a.obj" then some 5 else none) (str "z.a") = none ∨
        (∃ tL, (fun p => if p = str "od/a.obj" then some 5 else none) (str "z.a") = some tL ∧
          maxMtime (fun p => if p = str "od/a.obj" then some 5 else none) [str "od/a.obj"] > tL) →
        (archiveStage (str "z.a") [str "od/a.obj"]
            (fun p => if p = str "od/a.obj" then some 5 else none) true 9).events =
          [Event.removeFile (str "z.a"),
            Event.runArchiver (arCmd (str "z.a") [str "od/a.obj"])]) ∧
      (∀ tL, (fun p => if p = str "od/a.obj" then some 5 else none) (str "z.a") = some tL →
        ¬maxMtime (fun p => if p = str "od/a.obj" then some 5 else none) [str "od/a.obj"] > tL →
        (archiveStage (str "z.a") [str "od/a.obj"]
            (fun p => if p = str "od/a.obj" then some 5 else none) true 9).events = [])) ∧
    (archiveStage (str "z.a") [str "od/a.obj"]
        (fun p => if p = str "od/a.obj" then some 5 else if p = str "z.a" then some 6 else none)
        true 9).events = [] := by
  constructor
  · exact C4_archiver_invoked_iff (str "z.a") [str "od/a.obj"]
      (fun p => if p = str "od/a.obj" then some 5 else none) true 9 (by decide) (by decide)
  · exact (C4_archiver_invoked_iff (str "z.a") [str "od/a.obj"]
      (fun p => if p = str "od/a.obj" then some 5 else if p = str "z.a" then some 6 else none)
      true 9 (by decide) (by decide)).2.2 6 (by decide) (by decide)

theorem runPipeline_success_inversion (cfg : LibConfig) (env : PipelineEnv)
    (prev tlog0 : Log)
    (h : (runPipeline cfg env prev tlog0 .notLaunched).outcome = .completed true) :
    (inputsOf env).isEmpty = false ∧
    (preOf cfg env).fatal = false ∧
    preOkOf cfg env = true ∧
    (compOf cfg env prev tlog0).fatal = false ∧
    compOkOf cfg env prev tlog0 = true ∧
    (arOf cfg env prev tlog0).fatal = false ∧
    (arOf cfg env prev tlog0).ok = true ∧
    (runPipeline cfg env prev tlog0 .notLaunched).fs = (arOf cfg env prev tlog0).fs ∧
    (runPipeline cfg env prev tlog0 .notLaunched).thisLog
      = (compOf cfg env prev tlog0).thisLog := by
  unfold runPipeline at h ⊢
  rw [if_pos rfl] at h ⊢
  by_cases h1 : (inputsOf env).isEmpty = true
  · rw [if_pos h1] at h; simp at h
  · rw [if_neg h1] at h ⊢
    by_cases h2 : (preOf cfg env).fatal = true
    · rw [if_pos h2] at h; simp at h
    · rw [if_neg h2] at h ⊢
      by_cases h3 : preOkOf cfg env = false
      · rw [if_pos h3] at h; simp at h
      · rw [if_neg h3] at h ⊢
        by_cases h4 : (compOf cfg env prev tlog0).fatal = true
        · rw [if_pos h4] at h; simp at h
        · rw [if_neg h4] at h ⊢
          by_cases h5 : compOkOf cfg env prev tlog0 = false
          · rw [if_pos h5] at h; simp at h
          · rw [if_neg h5] at h ⊢
            by_cases h6 : (arOf cfg env prev tlog0).fatal = true
            · rw [if_pos h6] at h; simp at h
            · rw [if_neg h6] at h ⊢
              simp only [] at h
              have hok : (arOf cfg env prev tlog0).ok = true := by
                cases hv : (arOf cfg env prev tlog0).ok with
                | true => rfl
                | false => rw [hv] at h; simp at h
              refine ⟨by simpa using h1, by simpa using h2, ?_, by simpa using h4, ?_,
                by simpa using h6, hok, rfl, rfl⟩
              · cases hv : preOkOf cfg env with
                | true => rfl
                | false => exact absurd hv h3
              · cases hv : compOkOf cfg env prev tlog0 with
                | true => rfl
                | false => exact absurd hv h5

/-- C8: a target whose source glob patterns together match zero files makes
the pipeline abort fatally before launching any process: the outcome is the
fatal assert and the event trace is empty (no preprocess launch, no
compile launch, no removal, no archiver). -/
theorem C8_empty_glob_fatal (cfg : LibConfig) (env : PipelineEnv) (prev tlog0 : Log)
    (h : inputsOf env = []) :
    (runPipeline cfg env prev tlog0 .notLaunched).outcome = .fatal ∧
    (runPipeline cfg env prev tlog0 .notLaunched).events = [] := by
  unfold runPipeline
  rw [if_pos rfl, if_pos (by simp [h])]
  exact ⟨rfl, rfl⟩

/-- Witness for C8: a target with one glob pattern that matches nothing. -/
theorem C8_witness :
    (runPipeline ⟨.gcc, false, str "z", str "od", str "z.a", str "-DF", false⟩
        ⟨[[]], [], fun _ => 0, fun _ => true, true, fun _ => none, 1, 2⟩ [] []
        .notLaunched).outcome = .fatal ∧
    (runPipeline ⟨.gcc, false, str "z", str "od", str "z.a", str "-DF", false⟩
        ⟨[[]], [], fun _ => 0, fun _ => true, true, fun _ => none, 1, 2⟩ [] []
        .notLaunched).events = [] :=
  C8_empty_glob_fatal _ _ [] [] rfl

/-- C7: a LibraryTarget's build status follows
NotLaunched → Launched → one terminal state.  Launching a pipeline whose
status is not NotLaunched is a fatal assert with no status assignment;
a run that completes assigns Launched once at start and exactly one
terminal state at the end, and that terminal state is CompletedSuccess iff
the preprocess batch, the compile batch and the archive stage all
succeeded, otherwise CompletedFailed. -/
theorem C7_status_state_machine (cfg : LibConfig) (env : PipelineEnv)
    (prev tlog0 : Log) (status0 : ProcessStatus) :
    (status0 ≠ .notLaunched →
        (runPipeline cfg env prev tlog0 status0).outcome = .fatal ∧
        (runPipeline cfg env prev tlog0 status0).statusAssignments = []) ∧
    (∀ b, (runPipeline cfg env prev tlog0 status0).outcome = .completed b →
        status0 = .notLaunched ∧
        (runPipeline cfg env prev tlog0 status0).statusAssignments =
          [.launched, if b then .completedSuccess else .completedFailed] ∧
        (b = true ↔ preOkOf cfg env = true ∧ compOkOf cfg env prev tlog0 = true ∧
          (arOf cfg env prev tlog0).ok = true)) := by
  by_cases hs : status0 = ProcessStatus.notLaunched
  · subst hs
    refine ⟨fun hne => absurd rfl hne, ?_⟩
    intro b hb
    refine ⟨rfl, ?_⟩
    unfold runPipeline at hb ⊢
    rw [if_pos rfl] at hb ⊢
    by_cases h1 : (inputsOf env).isEmpty = true
    · rw [if_pos h1] at hb; simp at hb
    · rw [if_neg h1] at hb ⊢
      by_cases h2 : (preOf cfg env).fatal = true
      · rw [if_pos h2] at hb; simp at hb
      · rw [if_neg h2] at hb ⊢
        by_cases h3 : preOkOf cfg env = false
        · rw [if_pos h3] at hb ⊢
          have hbf : false = b := by simpa using hb
          subst hbf
          exact ⟨rfl, by simp [h3]⟩
        · rw [if_neg h3] at hb ⊢
          have h3' : preOkOf cfg env = true := by
            cases hv : preOkOf cfg env with
            | true => rfl
            | false => exact absurd hv h3
          by_cases h4 : (compOf cfg env prev tlog0).fatal = true
          · rw [if_pos h4] at hb; simp at hb
          · rw [if_neg h4] at hb ⊢
            by_cases h5 : compOkOf cfg env prev tlog0 = false
            · rw [if_pos h5] at hb ⊢
              have hbf : false = b := by simpa using hb
              subst hbf
              exact ⟨rfl, by simp [h5]⟩
            · rw [if_neg h5] at hb ⊢
              have h5' : compOkOf cfg env prev tlog0 = true := by
                cases hv : compOkOf cfg env prev tlog0 with
                | true => rfl
                | false => exact absurd hv h5
              by_cases h6 : (arOf cfg env prev tlog0).fatal = true
              · rw [if_pos h6] at hb; simp at hb
              · rw [if_neg h6] at hb ⊢
                have hba : (arOf cfg env prev tlog0).ok = b := by simpa using hb
                subst hba
                exact ⟨rfl, by simp [h3', h5']⟩
  · constructor
    · intro _
      unfold runPipeline
      rw [if_neg hs]
      exact ⟨rfl, rfl⟩
    · intro b hb
      unfold runPipeline at hb
      rw [if_neg hs] at hb
      simp at hb

/-- Witness for C7: launching from a non-NotLaunched status is fatal with
no assignment, and a concrete successful run assigns exactly Launched then
CompletedSuccess. -/
theorem C7_witness :
    ((runPipeline ⟨.gcc, false, str "z", str "od", str "z.a", str "-DF", false⟩
        ⟨[[str "s/a.c"]], [], fun _ => 7, fun _ => true, true, fun _ => none, 1, 2⟩ [] []
        .launched).outcome = .fatal ∧
      (runPipeline ⟨.gcc, false, str "z", str "od", str "z.a", str "-DF", false⟩
        ⟨[[str "s/a.c"]], [], fun _ => 7, fun _ => true, true, fun _ => none, 1, 2⟩ [] []
        .launched).statusAssignments = []) ∧
    (runPipeline ⟨.gcc, false, str "z", str "od", str "z.a", str "-DF", false⟩
        ⟨[[str "s/a.c"]], [], fun _ => 7, fun _ => true, true, fun _ => none, 1, 2⟩ [] []
        .notLaunched).statusAssignments
      = [.launched, .completedSuccess] := by
  constructor
  · exact (C7_status_state_machine _ _ [] [] .launched).1 (by decide)
  · have hcheck := (C7_status_state_machine
      ⟨.gcc, false, str "z", str "od", str "z.a", str "-DF", false⟩
      ⟨[[str "s/a.c"]], [], fun _ => 7, fun _ => true, true, fun _ => none, 1, 2⟩ [] []
      .notLaunched).2 true (by decide)
    exact hcheck.2.1

theorem archiveStage_not_fatal (libFile : Str) (objs : List Str) (fs : FS)
    (arOk : Bool) (tA : Nat)
    (h : (archiveStage libFile objs fs arOk tA).fatal = false) :
    objs ≠ [] ∧ ∀ o ∈ objs, (fs o).isSome = true := by
  by_cases hg : (!objs.isEmpty && objs.all fun o => (fs o).isSome) = true
  · simp only [Bool.and_eq_true, Bool.not_eq_true'] at hg
    refine ⟨?_, List.all_eq_true.1 hg.2⟩
    intro hnil
    subst hnil
    simp at hg
  · unfold archiveStage at h
    rw [if_neg hg] at h
    simp at h

theorem archiveStage_ok_fs (libFile : Str) (objs : List Str) (fs : FS)
    (arOk : Bool) (tA : Nat)
    (hne : objs ≠ []) (hval : ∀ o ∈ objs, (fs o).isSome = true)
    (hok : (archiveStage libFile objs fs arOk tA).ok = true) :
    (∃ tL, fs libFile = some tL ∧ ¬maxMtime fs objs > tL ∧
        (archiveStage libFile objs fs arOk tA).fs = fs) ∨
    ((archiveStage libFile objs fs arOk tA).fs
        = fsSet (fsDelete fs libFile) libFile tA) := by
  have hg := archiveStage_guard libFile objs fs hne hval
  unfold archiveStage at hok ⊢
  rw [if_pos hg] at hok ⊢
  cases hlib : fs libFile with
  | none =>
    right
    simp only [hlib] at hok ⊢
    simp_all
  | some tL =>
    by_cases hgt : maxMtime fs objs > tL
    · right
      simp only [hlib] at hok ⊢
      rw [if_pos (by simp [hgt])] at hok ⊢
      simp_all
    · left
      refine ⟨tL, rfl, hgt, ?_⟩
      simp [hgt]

theorem fs3_le_tCompile (cfg : LibConfig) (env : PipelineEnv) (prev tlog0 : Log)
    (hclock : ∀ p t, env.fs p = some t → t < env.tCompile) :
    ∀ p t, fs3Of cfg env prev tlog0 p = some t → t ≤ env.tCompile := by
  intro p t h
  unfold fs3Of at h
  rw [fsSetAll_eq] at h
  by_cases hrec : p ∈ (compOf cfg env prev tlog0).recompiled
  · rw [if_pos hrec] at h
    injection h with h'
    omega
  · rw [if_neg hrec] at h
    unfold fs2Of at h
    rw [fsDeleteAll_eq] at h
    by_cases hm : p ∈ unclaimedOf cfg env prev tlog0
    · rw [if_pos hm] at h; cases h
    · rw [if_neg hm] at h
      unfold fs1Of at h
      rw [fsDeleteAll_eq] at h
      by_cases hj : p ∈ junkOf env
      · rw [if_pos hj] at h; cases h
      · rw [if_neg hj] at h
        exact le_of_lt (hclock p t h)

theorem run_success_lib_newer (cfg : LibConfig) (env : PipelineEnv) (prev tlog0 : Log)
    (hsucc : (runPipeline cfg env prev tlog0 .notLaunched).outcome = .completed true)
    (hlibobj : cfg.libFile ∉ (inputsOf env).map (objOutPath cfg))
    (hclock : ∀ p t, env.fs p = some t → t < env.tCompile)
    (hta : env.tCompile < env.tArchive) :
    ∃ tL, (runPipeline cfg env prev tlog0 .notLaunched).fs cfg.libFile = some tL ∧
      ∀ i ∈ inputsOf env, ∃ t,
        (runPipeline cfg env prev tlog0 .notLaunched).fs (objOutPath cfg i) = some t ∧
        t ≤ tL := by
  obtain ⟨h1, h2, h3, h4, h5, h6, h7, hfseq, _⟩ :=
    runPipeline_success_inversion cfg env prev tlog0 hsucc
  rw [hfseq]
  have hobjs : (compOf cfg env prev tlog0).outputObjs
      = (inputsOf env).map (objOutPath cfg) :=
    compLoop_outputObjs cfg prev (fs1Of env) env.hashOf (inputsOf env) tlog0 h4
  have h6' : (archiveStage cfg.libFile (compOf cfg env prev tlog0).outputObjs
      (fs3Of cfg env prev tlog0) env.arOk env.tArchive).fatal = false := h6
  obtain ⟨hne, hval⟩ := archiveStage_not_fatal _ _ _ _ _ h6'
  have h7' : (archiveStage cfg.libFile (compOf cfg env prev tlog0).outputObjs
      (fs3Of cfg env prev tlog0) env.arOk env.tArchive).ok = true := h7
  have harfs : (arOf cfg env prev tlog0).fs
      = (archiveStage cfg.libFile (compOf cfg env prev tlog0).outputObjs
        (fs3Of cfg env prev tlog0) env.arOk env.tArchive).fs := rfl
  rcases archiveStage_ok_fs _ _ _ _ _ hne hval h7' with
    ⟨tL, hlib, hnot, hfs⟩ | hfs
  · refine ⟨tL, ?_, ?_⟩
    · rw [harfs, hfs]; exact hlib
    · intro i hi
      have hmem : objOutPath cfg i ∈ (compOf cfg env prev tlog0).outputObjs := by
        rw [hobjs]; exact List.mem_map_of_mem _ hi
      obtain ⟨t, ht⟩ := Option.isSome_iff_exists.1 (hval _ hmem)
      refine ⟨t, by rw [harfs, hfs]; exact ht, ?_⟩
      have hx : (fs3Of cfg env prev tlog0 (objOutPath cfg i)).getD 0
          ∈ (compOf cfg env prev tlog0).outputObjs.map
            (fun o => (fs3Of cfg env prev tlog0 o).getD 0) :=
        List.mem_map_of_mem _ hmem
      have hle : (fs3Of cfg env prev tlog0 (objOutPath cfg i)).getD 0
          ≤ maxMtime (fs3Of cfg env prev tlog0) (compOf cfg env prev tlog0).outputObjs :=
        mem_le_foldl_max _ _ _ hx
      rw [ht] at hle
      simp at hle
      omega
  · refine ⟨env.tArchive, ?_, ?_⟩
    · rw [harfs, hfs, fsSet_eq, if_pos rfl]
    · intro i hi
      have hmem : objOutPath cfg i ∈ (compOf cfg env prev tlog0).outputObjs := by
        rw [hobjs]; exact List.mem_map_of_mem _ hi
      obtain ⟨t, ht⟩ := Option.isSome_iff_exists.1 (hval _ hmem)
      have hnelib : objOutPath cfg i ≠ cfg.libFile := by
        intro heq
        apply hlibobj
        rw [← heq]
        exact List.mem_map_of_mem _ hi
      refine ⟨t, ?_, ?_⟩
      · rw [harfs, hfs, fsSet_eq, if_neg hnelib, fsDelete_eq, if_neg hnelib]
        exact ht
      · have := fs3_le_tCompile cfg env prev tlog0 hclock _ _ ht
        omega

/-- C2: running the per-target pipeline a second time over the filesystem
state left by a successful first run, with the first run's current-run log
as the previous-run cache and no source or flag changes (same glob results,
same preprocessed-content hashes, same configuration), launches zero
compile processes and zero archiver invocations; only the preprocess stage
reruns (one launch per input). -/
theorem C2_second_run_skips_compiles_and_archive (cfg : LibConfig)
    (env1 env2 : PipelineEnv) (prev1 tlog1 tlog2 : Log)
    (hglob : env2.globResults = env1.globResults)
    (hhash : env2.hashOf = env1.hashOf)
    (hfs2 : env2.fs = (runPipeline cfg env1 prev1 tlog1 .notLaunched).fs)
    (hsucc : (runPipeline cfg env1 prev1 tlog1 .notLaunched).outcome = .completed true)
    (hnodup : ((inputsOf env1).map (objOutPath cfg)).Nodup)
    (hlibobj : cfg.libFile ∉ (inputsOf env1).map (objOutPath cfg))
    (hlibd2 : cfg.libFile ∉ env2.dirEntries)
    (hclock : ∀ p t, env1.fs p = some t → t < env1.tCompile)
    (hta : env1.tCompile < env1.tArchive) :
    countCompile (runPipeline cfg env2
        (runPipeline cfg env1 prev1 tlog1 .notLaunched).thisLog tlog2 .notLaunched).events
      = 0 ∧
    countArchiver (runPipeline cfg env2
        (runPipeline cfg env1 prev1 tlog1 .notLaunched).thisLog tlog2 .notLaunched).events
      = 0 ∧
    countPreprocess (runPipeline cfg env2
        (runPipeline cfg env1 prev1 tlog1 .notLaunched).thisLog tlog2 .notLaunched).events
      = (inputsOf env1).length := by
  obtain ⟨h1, h2, h3, h4, h5, h6, h7, hfseq, htleq⟩ :=
    runPipeline_success_inversion cfg env1 prev1 tlog1 hsucc
  obtain ⟨tL, hlibfs, hobjfs⟩ :=
    run_success_lib_newer cfg env1 prev1 tlog1 hsucc hlibobj hclock hta
  set R := runPipeline cfg env1 prev1 tlog1 ProcessStatus.notLaunched with hR
  have hinputs : inputsOf env2 = inputsOf env1 := by
    unfold inputsOf
    rw [hglob]
  have hne2 : (inputsOf env2).isEmpty = false := by rw [hinputs]; exact h1
  have hpre2 : preOf cfg env2 = preOf cfg env1 := by
    unfold preOf
    rw [hinputs]
  have hpf2 : (preOf cfg env2).fatal = false := by rw [hpre2]; exact h2
  have hlookup := compLoop_thisLog_lookup cfg prev1 (fs1Of env1) env1.hashOf
    (inputsOf env1) tlog1 h4 hnodup
  have hhit : ∀ i ∈ inputsOf env2, ∀ c, compileCmdOf cfg i = some c →
      shouldRecompile R.thisLog (fs1Of env2) (objOutPath cfg i)
        (env2.hashOf (preOutPath cfg i)) c = false := by
    intro i hi c hc
    rw [hinputs] at hi
    obtain ⟨c1, hc1, hget⟩ := hlookup i hi
    rw [hc] at hc1
    injection hc1 with hcc
    subst hcc
    obtain ⟨t, hobj, _⟩ := hobjfs i hi
    have hjunk : objOutPath cfg i ∉ junkOf env2 := objOutPath_not_mem_junk cfg env2 i
    have hfs1v : fs1Of env2 (objOutPath cfg i) = some t := by
      unfold fs1Of
      rw [fsDeleteAll_eq, if_neg hjunk, hfs2]
      exact hobj
    have hget' : shget R.thisLog (objOutPath cfg i)
        = some ⟨c, env2.hashOf (preOutPath cfg i)⟩ := by
      rw [htleq, hhash]
      exact hget
    exact shouldRecompile_hit _ _ _ _ _ hget' (by rw [hfs1v]; rfl)
  have hcomp2 := compLoop_all_hit cfg R.thisLog (fs1Of env2) env2.hashOf
    (inputsOf env2) tlog2 hhit
  have hcev : (compOf cfg env2 R.thisLog tlog2).events = [] := hcomp2.1
  have hclaunch : (compOf cfg env2 R.thisLog tlog2).launchedCmds = [] := hcomp2.2.1
  have hcrec : (compOf cfg env2 R.thisLog tlog2).recompiled = [] := hcomp2.2.2
  have hcomp2fatal : (compOf cfg env2 R.thisLog tlog2).fatal = false := by
    unfold compOf
    rw [hinputs]
    rw [compLoop_fatal_congr cfg R.thisLog prev1 (fs1Of env2) (fs1Of env1)
      env2.hashOf env1.hashOf (inputsOf env1) tlog2 tlog1]
    exact h4
  have hck2 : compOkOf cfg env2 R.thisLog tlog2 = true := by
    unfold compOkOf
    rw [hclaunch]
    rfl
  obtain ⟨hpe, hplen⟩ := preLoop_shape cfg (inputsOf env2) hpf2
  have hpe' : (preOf cfg env2).events = (preOf cfg env2).cmds.map Event.launchPreprocess := hpe
  have hplen' : (preOf cfg env2).cmds.length = (inputsOf env2).length := hplen
  by_cases hpk : preOkOf cfg env2 = false
  · have hrun2ev : (runPipeline cfg env2 R.thisLog tlog2 .notLaunched).events
        = scanEventsOf env2 ++ (preOf cfg env2).events := by
      unfold runPipeline
      rw [if_pos rfl, if_neg (by simp [hne2]), if_neg (by simp [hpf2]), if_pos hpk]
    rw [hrun2ev]
    refine ⟨?_, ?_, ?_⟩
    · simp [scanEventsOf, countCompile_append, countCompile_removeFiles, hpe',
        countCompile_launchPreprocess]
    · simp [scanEventsOf, countArchiver_append, countArchiver_removeFiles, hpe',
        countArchiver_launchPreprocess]
    · simp [scanEventsOf, countPreprocess_append, countPreprocess_removeFiles, hpe',
        countPreprocess_launches]
      rw [hplen', hinputs]
  · have hpk' : preOkOf cfg env2 = true := by
      cases hv : preOkOf cfg env2 with
      | true => rfl
      | false => exact absurd hv hpk
    have hobjs2 : (compOf cfg env2 R.thisLog tlog2).outputObjs
        = (inputsOf env2).map (objOutPath cfg) :=
      compLoop_outputObjs cfg R.thisLog (fs1Of env2) env2.hashOf (inputsOf env2) tlog2
        hcomp2fatal
    have hfs3eq : fs3Of cfg env2 R.thisLog tlog2 = fs2Of cfg env2 R.thisLog tlog2 := by
      unfold fs3Of
      rw [hcrec]
      rfl
    have hfs2obj : ∀ i ∈ inputsOf env2,
        fs2Of cfg env2 R.thisLog tlog2 (objOutPath cfg i) = R.fs (objOutPath cfg i) := by
      intro i hi
      have hout : objOutPath cfg i ∈ (compOf cfg env2 R.thisLog tlog2).outputObjs := by
        rw [hobjs2]
        exact List.mem_map_of_mem _ hi
      have hneu := not_mem_unclaimed_of_output cfg env2 R.thisLog tlog2 _ hout
      have hjunk := objOutPath_not_mem_junk cfg env2 i
      unfold fs2Of fs1Of
      rw [fsDeleteAll_eq, if_neg hneu, fsDeleteAll_eq, if_neg hjunk, hfs2]
    have hlibjunk : cfg.libFile ∉ junkOf env2 := fun hm => hlibd2 (mem_junk_sub env2 _ hm)
    have hlibuncl : cfg.libFile ∉ unclaimedOf cfg env2 R.thisLog tlog2 :=
      fun hm => hlibd2 (mem_unclaimed_sub cfg env2 _ _ _ hm)
    have hfs2lib : fs2Of cfg env2 R.thisLog tlog2 cfg.libFile = R.fs cfg.libFile := by
      unfold fs2Of fs1Of
      rw [fsDeleteAll_eq, if_neg hlibuncl, fsDeleteAll_eq, if_neg hlibjunk, hfs2]
    have hlib3 : fs3Of cfg env2 R.thisLog tlog2 cfg.libFile = some tL := by
      rw [hfs3eq, hfs2lib]
      exact hlibfs
    have hvals : ∀ o ∈ (compOf cfg env2 R.thisLog tlog2).outputObjs,
        (fs3Of cfg env2 R.thisLog tlog2 o).isSome = true ∧
        (fs3Of cfg env2 R.thisLog tlog2 o).getD 0 ≤ tL := by
      intro o ho
      rw [hobjs2] at ho
      obtain ⟨i, hi, rfl⟩ := List.mem_map.1 ho
      have hi1 : i ∈ inputsOf env1 := by rw [← hinputs]; exact hi
      obtain ⟨t, hRfs, htle⟩ := hobjfs i hi1
      have hv : fs3Of cfg env2 R.thisLog tlog2 (objOutPath cfg i) = some t := by
        rw [hfs3eq, hfs2obj i hi]
        exact hRfs
      rw [hv]
      exact ⟨rfl, by simpa using htle⟩
    have hne' : (compOf cfg env2 R.thisLog tlog2).outputObjs ≠ [] := by
      rw [hobjs2]
      cases hin : inputsOf env2 with
      | nil => rw [hin] at hne2; simp at hne2
      | cons a l => simp
    have hmaxle : maxMtime (fs3Of cfg env2 R.thisLog tlog2)
        (compOf cfg env2 R.thisLog tlog2).outputObjs ≤ tL := by
      unfold maxMtime
      apply foldl_max_le _ 0 tL (by omega)
      intro x hx
      obtain ⟨o, ho, rfl⟩ := List.mem_map.1 hx
      exact (hvals o ho).2
    have har2 : (arOf cfg env2 R.thisLog tlog2).events = [] ∧
        (arOf cfg env2 R.thisLog tlog2).fatal = false := by
      have hg := archiveStage_guard cfg.libFile
        (compOf cfg env2 R.thisLog tlog2).outputObjs (fs3Of cfg env2 R.thisLog tlog2)
        hne' (fun o ho => (hvals o ho).1)
      have hdec : decide (maxMtime (fs3Of cfg env2 R.thisLog tlog2)
          (compOf cfg env2 R.thisLog tlog2).outputObjs > tL) = false := by
        simp
        omega
      unfold arOf archiveStage
      rw [if_pos hg]
      simp only [hlib3, hdec]
      simp
    have hrun2ev : (runPipeline cfg env2 R.thisLog tlog2 .notLaunched).events =
        scanEventsOf env2 ++ (preOf cfg env2).events
          ++ (compOf cfg env2 R.thisLog tlog2).events
          ++ evictEventsOf cfg env2 R.thisLog tlog2
          ++ (arOf cfg env2 R.thisLog tlog2).events := by
      unfold runPipeline
      rw [if_pos rfl, if_neg (by simp [hne2]), if_neg (by simp [hpf2]),
        if_neg (by simp [hpk']), if_neg (by simp [hcomp2fatal]),
        if_neg (by simp [hck2]), if_neg (by simp [har2.2])]
    rw [hrun2ev, hcev, har2.1]
    refine ⟨?_, ?_, ?_⟩
    · simp [scanEventsOf, evictEventsOf, countCompile_append, countCompile_removeFiles,
        hpe', countCompile_launchPreprocess]
    · simp [scanEventsOf, evictEventsOf, countArchiver_append, countArchiver_removeFiles,
        hpe', countArchiver_launchPreprocess]
    · simp [scanEventsOf, evictEventsOf, countPreprocess_append,
        countPreprocess_removeFiles, hpe', countPreprocess_launches]
      rw [hplen', hinputs]

/-- Witness for C2: a one-source target built from an empty filesystem
(first run compiles and archives), then rerun over the resulting state. -/
theorem C2_witness :
    countCompile (runPipeline ⟨.gcc, false, str "z", str "od", str "z.a", str "-DF", false⟩
        ⟨[[str "s/a.c"]], [], fun _ => 7, fun _ => true, true,
          (runPipeline ⟨.gcc, false, str "z", str "od", str "z.a", str "-DF", false⟩
            ⟨[[str "s/a.c"]], [], fun _ => 7, fun _ => true, true, fun _ => none, 1, 2⟩
            [] [] .notLaunched).fs, 3, 4⟩
        (runPipeline ⟨.gcc, false, str "z", str "od", str "z.a", str "-DF", false⟩
          ⟨[[str "s/a.c"]], [], fun _ => 7, fun _ => true, true, fun _ => none, 1, 2⟩
          [] [] .notLaunched).thisLog [] .notLaunched).events = 0 ∧
    countArchiver (runPipeline ⟨.gcc, false, str "z", str "od", str "z.a", str "-DF", false⟩
        ⟨[[str "s/a.c"]], [], fun _ => 7, fun _ => true, true,
          (runPipeline ⟨.gcc, false, str "z", str "od", str "z.a", str "-DF", false⟩
            ⟨[[str "s/a.c"]], [], fun _ => 7, fun _ => true, true, fun _ => none, 1, 2⟩
            [] [] .notLaunched).fs, 3, 4⟩
        (runPipeline ⟨.gcc, false, str "z", str "od", str "z.a", str "-DF", false⟩
          ⟨[[str "s/a.c"]], [], fun _ => 7, fun _ => true, true, fun _ => none, 1, 2⟩
          [] [] .notLaunched).thisLog [] .notLaunched).events = 0 ∧
    countPreprocess (runPipeline ⟨.gcc, false, str "z", str "od", str "z.a", str "-DF", false⟩
        ⟨[[str "s/a.c"]], [], fun _ => 7, fun _ => true, true,
          (runPipeline ⟨.gcc, false, str "z", str "od", str "z.a", str "-DF", false⟩
            ⟨[[str "s/a.c"]], [], fun _ => 7, fun _ => true, true, fun _ => none, 1, 2⟩
            [] [] .notLaunched).fs, 3, 4⟩
        (runPipeline ⟨.gcc, false, str "z", str "od", str "z.a", str "-DF", false⟩
          ⟨[[str "s/a.c"]], [], fun _ => 7, fun _ => true, true, fun _ => none, 1, 2⟩
          [] [] .notLaunched).thisLog [] .notLaunched).events
      = (inputsOf ⟨[[str "s/a.c"]], [], fun _ => 7, fun _ => true, true,
          fun _ => none, 1, 2⟩).length :=
  C2_second_run_skips_compiles_and_archive
    ⟨.gcc, false, str "z", str "od", str "z.a", str "-DF", false⟩
    ⟨[[str "s/a.c"]], [], fun _ => 7, fun _ => true, true, fun _ => none, 1, 2⟩
    ⟨[[str "s/a.c"]], [], fun _ => 7, fun _ => true, true,
      (runPipeline ⟨.gcc, false, str "z", str "od", str "z.a", str "-DF", false⟩
        ⟨[[str "s/a.c"]], [], fun _ => 7, fun _ => true, true, fun _ => none, 1, 2⟩
        [] [] .notLaunched).fs, 3, 4⟩
    [] [] [] rfl rfl rfl (by decide) (by decide) (by decide) (by decide)
    (fun p t h => Option.noConfusion h) (by decide)
